import Mathlib

/-!
Verification of the tree-gpt web client's branch-synchronization and
streaming-ingestion core against its natural-language specification.

The definitions below are a shallow embedding of the TypeScript source:
* `ChatPane` (the send / stream-session logic, path cache, sending set),
* the page component `Home` in `pages/index.tsx` (graph store, unread
  tracker, scroll registry, pending-node callbacks),
* `ChatGraph.tsx` (`layoutNodes` and `clamp`).

JavaScript peculiarities that matter to the claims are modelled
explicitly: `??` is null-coalescing (`Option.orElse`/`getD`), while `if (x)`
on a string is truthiness (`none` and `some ""` are both falsy, captured by
`strTruthy`).  Numbers appearing in layout / viewport arithmetic are
modelled as rationals.  Maps keyed by strings are modelled as functions
`String → Option _`; a JS `Set` of strings as `String → Bool` or
`Finset String`.
-/

namespace TreeGpt

/-- JS truthiness of a `string | null` value: `null` and `""` are falsy. -/
def strTruthy : Option String → Bool
  | none => false
  | some s => s ≠ ""

/-- JavaScript's `String.prototype.trim` on a character list (used on
the composer input, on each extracted line of the stream, and on the
trailing buffer). -/
def trimChars (l : List Char) : List Char :=
  ((l.dropWhile Char.isWhitespace).reverse.dropWhile Char.isWhitespace).reverse

/-- JavaScript's `String.prototype.trim`. -/
def jsTrim (s : String) : String := ⟨trimChars s.data⟩

/-- `computeKey` from `ChatPane`:
`` `${maybeTreeId ?? '__no_tree__'}:${nodeId ?? '__root__'}` ``. -/
def computeKey (maybeTreeId : Option String) (nodeId : Option String) : String :=
  (maybeTreeId.getD "__no_tree__") ++ ":" ++ (nodeId.getD "__root__")

/-- One entry of a cached display path (`DisplayMessage` in `ChatPane`). -/
structure DisplayMessage where
  role : String
  content : String
  pending : Bool
  id : Option String
  deriving DecidableEq, Repr

/-- A stream session record (`streamSessionsRef` entries in `ChatPane`);
the `AbortController` is modelled by the stream outcome instead. -/
structure Session where
  pendingAssistantId : String
  assistantId : Option String
  content : String
  userId : Option String
  active : Bool
  deriving DecidableEq, Repr

/-- A node of the page-level graph store (`GraphNode` in `lib/api.ts`,
fields the claims need). -/
structure GraphNode where
  id : String
  role : String
  label : String
  parent_id : Option String
  user_label : Option String
  assistant_label : Option String
  deriving DecidableEq, Repr

/-- An edge of the page-level graph store. -/
structure GraphEdge where
  id : String
  source : String
  target : String
  deriving DecidableEq, Repr

/-- The page-level graph store (`GraphResponse`). -/
structure Graph where
  nodes : List GraphNode
  edges : List GraphEdge
  deriving DecidableEq, Repr

/-- The per-tree unread map (`unreadMap` in `pages/index.tsx`):
a JS `Map<string, Set<string>>` modelled as a partial function. -/
def UnreadMap : Type := String → Option (Finset String)

/-- `markNodeUnread` from `pages/index.tsx`: idempotent add, guarded by
JS truthiness of both arguments. -/
def markNodeUnread (m : UnreadMap) (treeId nodeId : String) : UnreadMap :=
  if treeId = "" ∨ nodeId = "" then m
  else
    let existing := m treeId
    if nodeId ∈ existing.getD ∅ then m
    else fun t => if t = treeId then some (insert nodeId (existing.getD ∅)) else m t

/-- `markNodeRead` from `pages/index.tsx`: idempotent remove; deletes the
tree's entry when the set becomes empty. -/
def markNodeRead (m : UnreadMap) (treeId nodeId : String) : UnreadMap :=
  if treeId = "" ∨ nodeId = "" then m
  else
    match m treeId with
    | none => m
    | some existing =>
        if nodeId ∉ existing then m
        else
          let nextSet := existing.erase nodeId
          if nextSet = ∅ then fun t => if t = treeId then none else m t
          else fun t => if t = treeId then some nextSet else m t

/-- `pruneUnreadForTree` from `pages/index.tsx`: keeps only ids in
`validIds`; no-op when nothing was dropped; deletes the entry when the
filtered set is empty. -/
def pruneUnreadForTree (m : UnreadMap) (treeId : String) (validIds : Finset String) :
    UnreadMap :=
  match m treeId with
  | none => m
  | some existing =>
      let nextSet := existing.filter (fun id => id ∈ validIds)
      if nextSet = existing then m
      else if nextSet = ∅ then fun t => if t = treeId then none else m t
      else fun t => if t = treeId then some nextSet else m t

/-- The unread-map cleanup performed by `handleDeleteTree`: drop the
deleted tree's entry (no-op when absent). -/
def deleteTreeUnread (m : UnreadMap) (treeId : String) : UnreadMap :=
  match m treeId with
  | none => m
  | some _ => fun t => if t = treeId then none else m t

/-- The unread-map invariant of claim C10: every tree id present in the
map carries a non-empty set. -/
def UnreadInv (m : UnreadMap) : Prop :=
  ∀ t s, m t = some s → s.Nonempty

/-- `clamp` from `ChatGraph.tsx`: a degenerate range `min > max`
collapses to the midpoint, otherwise the usual two-sided clamp. -/
def clamp (value lo hi : ℚ) : ℚ :=
  if lo > hi then (lo + hi) / 2
  else min (max value lo) hi

/-- The mutable client state the claims range over: `ChatPane`'s refs and
state (`pathStoreRef`, `pathSnapshot`, `activeKeyRef`, `sendingKeysRef`,
`streamSessionsRef`, `input`) together with the page-level state of
`Home` (`graph`, `activeTreeId`, `activeNodeId`, `unreadMap`,
`scrollPositionsRef`). -/
structure ClientState where
  pathStore : String → Option (List DisplayMessage)
  pathSnapshot : List DisplayMessage
  activeKey : String
  sendingKeys : String → Bool
  sessions : String → Option Session
  input : String
  graph : Graph
  pageActiveTreeId : Option String
  pageActiveNodeId : Option String
  unreadMap : UnreadMap
  scrollPositions : String → Option ℚ

/-- `updatePathForKey` from `ChatPane`: apply `updater` to the cached path
of `key` (missing entry read as `[]`), store the result, and mirror it
into the visible snapshot when `key` is the active key. -/
def updatePathForKey (st : ClientState) (key : String)
    (updater : List DisplayMessage → List DisplayMessage) : ClientState :=
  let current := (st.pathStore key).getD []
  let next := updater current
  { st with
    pathStore := fun k => if k = key then some next else st.pathStore k
    pathSnapshot := if key = st.activeKey then next else st.pathSnapshot }

/-- `handlePendingUserMessage` from `pages/index.tsx`: optimistically add
the pending user node (and its edge) to the graph store and select it
when its tree is the active one. -/
def handlePendingUserMessage (st : ClientState)
    (id : String) (parentId : Option String) (content : String) (treeId : String) :
    ClientState :=
  let g := st.graph
  let nodeExists := g.nodes.any (fun n => n.id = id)
  let g' :=
    if nodeExists then g
    else
      let newNode : GraphNode :=
        { id := id, role := "user", label := content, parent_id := parentId
          user_label := some content, assistant_label := none }
      let nextNodes := g.nodes ++ [newNode]
      let nextEdges :=
        match parentId with
        | some p =>
            if g.edges.any (fun e => e.target = id) then g.edges
            else g.edges ++ [{ id := "pending-edge-" ++ p ++ "-" ++ id
                               source := p, target := id }]
        | none => g.edges
      { nodes := nextNodes, edges := nextEdges }
  let active' :=
    if some treeId = st.pageActiveTreeId then some id else st.pageActiveNodeId
  { st with graph := g', pageActiveNodeId := active' }

/-- `handlePendingUserMessageFailed` from `pages/index.tsx`: retract the
optimistic user node and every edge touching it; if it was selected,
fall back to its parent. -/
def handlePendingUserMessageFailed (st : ClientState)
    (id : String) (parentId : Option String) : ClientState :=
  let g := st.graph
  let g' : Graph :=
    { nodes := g.nodes.filter (fun n => n.id ≠ id)
      edges := g.edges.filter (fun e => e.source ≠ id ∧ e.target ≠ id) }
  let active' :=
    if st.pageActiveNodeId = some id then parentId else st.pageActiveNodeId
  { st with graph := g', pageActiveNodeId := active' }

/-- `handleAfterSend` from `pages/index.tsx` (its synchronous part; the
trailing `refreshGraph` server round-trip is modelled separately by
`pruneUnreadForTree`): mark the new assistant node unread, and when the
reply's tree is the active one, select the assistant node and drop the
optimistic pending user node from the graph store. -/
def handleAfterSend (st : ClientState)
    (assistantId treeId : String) (pendingUserId : String) : ClientState :=
  let st1 := { st with unreadMap := markNodeUnread st.unreadMap treeId assistantId }
  if some treeId ≠ st.pageActiveTreeId then st1
  else
    let st2 := { st1 with pageActiveNodeId := some assistantId }
    let g := st2.graph
    let g' :=
      if g.nodes.any (fun n => n.id = pendingUserId) then
        { nodes := g.nodes.filter (fun n => n.id ≠ pendingUserId)
          edges := g.edges.filter
            (fun e => e.source ≠ pendingUserId ∧ e.target ≠ pendingUserId) : Graph }
      else g
    { st2 with graph := g' }

/-- `handleScroll` from `ChatPane`: report `null` (read position) when the
distance from the bottom is within the 2px epsilon, else the offset. -/
def handleScroll (scrollHeight clientHeight scrollTop : ℚ) : Option ℚ :=
  if |scrollHeight - clientHeight - scrollTop| ≤ 2 then none else some scrollTop

/-- `currentScrollKey` from `pages/index.tsx`. -/
def currentScrollKeyOf (st : ClientState) (rootId : Option String) : Option String :=
  match st.pageActiveTreeId with
  | none => none
  | some t =>
      if t = "" then none
      else some (t ++ ":" ++ ((st.pageActiveNodeId.orElse fun _ => rootId).getD "__root__"))

/-- `handleScrollPositionChange` from `pages/index.tsx`: a `null` report
clears the stored scroll offset and, when the active node is unread,
marks it read; otherwise the offset is stored. -/
def handleScrollPositionChange (st : ClientState) (rootId : Option String)
    (scrollTop : Option ℚ) : ClientState :=
  match currentScrollKeyOf st rootId with
  | none => st
  | some key =>
      match scrollTop with
      | none =>
          let st1 :=
            { st with scrollPositions := fun k => if k = key then none else st.scrollPositions k }
          match st.pageActiveTreeId, st.pageActiveNodeId with
          | some t, some n =>
              if strTruthy (some t) ∧ strTruthy (some n) ∧
                  n ∈ (st.unreadMap t).getD ∅ then
                { st1 with unreadMap := markNodeRead st1.unreadMap t n }
              else st1
          | _, _ => st1
      | some v =>
          { st with scrollPositions := fun k => if k = key then some v else st.scrollPositions k }

/-- The arguments a call of `send` closes over: the pane props
(`treeId`, `activeNodeId`, `defaultParentId`), the result the
`onEnsureTree` callback would yield (`none` when the callback is absent
or resolved to `null`), and the timestamp string
`Date.now().toString(36)`. -/
structure SendCtx where
  treeId : Option String
  activeNodeId : Option String
  defaultParentId : Option String
  ensureTree : Option String
  stamp : String

/-- One parsed line of the wire protocol (`JSON.parse(line)` in
`processLine`).  Fields are `Option`s because the JSON fields may be
absent (`?? null`) or of the wrong type (`typeof` checks).
`otherFrame` is a JSON object with an unrecognised `type` (ignored);
`malformed` is a line `JSON.parse` rejects (throws). -/
inductive Frame where
  | start (userId : Option String)
  | token (delta : Option String)
  | endFrame (assistantId : Option String) (content : Option String)
  | errorFrame (message : String)
  | otherFrame
  | malformed
  deriving DecidableEq, Repr

/-- The local mutable state of one run of `send`'s streaming loop. -/
structure StreamState where
  cs : ClientState
  streamKey : String
  serverUserId : Option String
  finalAssistantId : Option String
  finalContent : String

/-- `migrateStreamKey` from `send`: move the cache entry, the sending
flag and the live session from the provisional key to `nextKey`, update
the active-key mirror, and continue under `nextKey`; no-op when the keys
are already equal. -/
def migrateStreamKey (s : StreamState) (nextKey : String) : StreamState :=
  if nextKey = s.streamKey then s
  else
    let currentPath := (s.cs.pathStore s.streamKey).getD []
    let pathStore' := fun k =>
      if k = nextKey then some currentPath
      else if k = s.streamKey then none
      else s.cs.pathStore k
    let sendingKeys' :=
      if s.cs.sendingKeys s.streamKey then
        fun k => if k = nextKey then true
                 else if k = s.streamKey then false
                 else s.cs.sendingKeys k
      else s.cs.sendingKeys
    let sessions' :=
      match s.cs.sessions s.streamKey with
      | some session => fun k =>
          if k = nextKey then some session
          else if k = s.streamKey then none
          else s.cs.sessions k
      | none => s.cs.sessions
    let cs' :=
      if s.cs.activeKey = s.streamKey then
        { s.cs with pathStore := pathStore', sendingKeys := sendingKeys'
                    sessions := sessions', activeKey := nextKey
                    pathSnapshot := currentPath }
      else
        { s.cs with pathStore := pathStore', sendingKeys := sendingKeys'
                    sessions := sessions' }
    { s with cs := cs', streamKey := nextKey }

/-- `processLine` from `send`, for one already-parsed frame.  `upid` and
`apid` are the temporary ids of the run, `targetTreeId` the resolved
tree.  A thrown error (explicit `error` frame or a malformed line) is
`Except.error ()`; the caller's `catch` receives the state at the throw. -/
def processFrame (upid apid targetTreeId : String) (s : StreamState) :
    Frame → Except Unit StreamState
  | .start uid =>
      let cs1 := updatePathForKey s.cs s.streamKey (fun prev =>
        prev.map (fun msg =>
          if msg.id = some upid then
            { msg with id := (match uid with | some u => some u | none => msg.id),
                       pending := false }
          else msg))
      let cs2 := { cs1 with sessions := fun k =>
        (if k = s.streamKey then
          (cs1.sessions s.streamKey).map (fun ss => { ss with userId := uid })
        else cs1.sessions k) }
      .ok { s with cs := cs2, serverUserId := uid }
  | .token d =>
      let delta := d.getD ""
      let newSession := (s.cs.sessions s.streamKey).map
        (fun ss => { ss with content := ss.content ++ delta })
      let cs1 := { s.cs with sessions := fun k =>
        if k = s.streamKey then newSession else s.cs.sessions k }
      let contentNow := (newSession.map (fun ss => ss.content)).getD delta
      let cs2 := updatePathForKey cs1 s.streamKey (fun prev =>
        prev.map (fun msg =>
          if msg.id = some apid then
            { msg with content := contentNow, pending := true }
          else msg))
      .ok { s with cs := cs2 }
  | .endFrame aid c =>
      let finalContent := c.getD ""
      let cs1 := { s.cs with sessions := fun k =>
        (if k = s.streamKey then
          (s.cs.sessions s.streamKey).map (fun ss =>
            { ss with assistantId := aid, content := finalContent, active := false })
        else s.cs.sessions k) }
      let cs2 := updatePathForKey cs1 s.streamKey (fun prev =>
        prev.map (fun msg =>
          if msg.id = some apid then
            { msg with id := (match aid with | some a => some a | none => msg.id),
                       content := finalContent, pending := false }
          else if msg.id = some upid ∧ strTruthy s.serverUserId then
            { msg with id := s.serverUserId, pending := false }
          else msg))
      let s1 := { s with cs := cs2, finalAssistantId := aid, finalContent := finalContent }
      .ok (if strTruthy aid then
             migrateStreamKey s1 (computeKey (some targetTreeId) aid)
           else s1)
  | .errorFrame _ => .error ()
  | .otherFrame => .ok s
  | .malformed => .error ()

/-- The frame loop: frames are processed strictly in arrival order; a
throw aborts the loop and carries the state at the throw to `catch`. -/
def processFrames (upid apid targetTreeId : String) :
    StreamState → List Frame → Except StreamState StreamState
  | s, [] => .ok s
  | s, f :: fs =>
      match processFrame upid apid targetTreeId s f with
      | .ok s' => processFrames upid apid targetTreeId s' fs
      | .error _ => .error s

/-- The `catch` branch of `send`.  On `AbortError` only the pending
assistant entry is filtered from the in-flight path; otherwise both
pending entries are filtered and the trimmed text is restored into the
input box.  Both branches then retract the optimistic graph node and
delete the cache entry, the session and the sending flag of the
stream's key. -/
def catchBranch (isAbort : Bool) (upid apid : String) (parent : Option String)
    (trimmed : String) (s : StreamState) : ClientState :=
  let cs2 :=
    if isAbort then
      let cs1 := updatePathForKey s.cs s.streamKey (fun prev =>
        prev.filter (fun msg => msg.id ≠ some apid))
      handlePendingUserMessageFailed cs1 upid parent
    else
      let cs1 := updatePathForKey s.cs s.streamKey (fun prev =>
        prev.filter (fun msg => msg.id ≠ some upid ∧ msg.id ≠ some apid))
      let cs1' := { cs1 with input := trimmed }
      handlePendingUserMessageFailed cs1' upid parent
  { cs2 with
    pathStore := fun key => if key = s.streamKey then none else cs2.pathStore key
    sessions := fun key => if key = s.streamKey then none else cs2.sessions key
    sendingKeys := fun key => if key = s.streamKey then false else cs2.sendingKeys key }

/-- The success tail of `send`: drop the session and the sending flag of
the (migrated) stream key and fire `onAfterSend`. -/
def successTail (upid targetTreeId : String) (a : String) (s : StreamState) :
    ClientState :=
  let cs1 := { s.cs with
    sessions := fun k => if k = s.streamKey then none else s.cs.sessions k
    sendingKeys := fun k => if k = s.streamKey then false else s.cs.sendingKeys k }
  handleAfterSend cs1 a targetTreeId upid

/-- How the transport resolves, seen from `send`'s `await` points. -/
inductive Terminal where
  | eof
  | transportError
  | aborted
  deriving DecidableEq, Repr

/-- The whole network interaction of one `send`: an immediately failing
HTTP response (`!response.ok || !response.body`), or a sequence of
parsed frames followed by how the final `read()` resolved. -/
inductive StreamOutcome where
  | httpError
  | frames (fs : List Frame) (term : Terminal)

/-- The streaming part of `send` after the optimistic phase. -/
def runStream (upid apid targetTreeId : String) (parent : Option String)
    (trimmed : String) (s0 : StreamState) (o : StreamOutcome) : ClientState :=
  match o with
  | .httpError => catchBranch false upid apid parent trimmed s0
  | .frames fs term =>
      match processFrames upid apid targetTreeId s0 fs with
      | .error sErr => catchBranch false upid apid parent trimmed sErr
      | .ok s' =>
          match term with
          | .aborted => catchBranch true upid apid parent trimmed s'
          | .transportError => catchBranch false upid apid parent trimmed s'
          | .eof =>
              match s'.finalAssistantId with
              | some a =>
                  if a = "" then catchBranch false upid apid parent trimmed s'
                  else successTail upid targetTreeId a s'
              | none => catchBranch false upid apid parent trimmed s'

/-- The stream-state components a run of non-`end` frames (`start`,
`token`, unrecognised) never changes: the key stays provisional, no
assistant id is recorded, and every client-state field other than the
cache entry and session under the stream key (and the snapshot mirror
when the stream key is the active key) is untouched. -/
def StreamPreserve (s s' : StreamState) : Prop :=
  s'.streamKey = s.streamKey ∧
  s'.finalAssistantId = s.finalAssistantId ∧
  (∀ k, k ≠ s.streamKey → s'.cs.pathStore k = s.cs.pathStore k) ∧
  (∀ k, k ≠ s.streamKey → s'.cs.sessions k = s.cs.sessions k) ∧
  s'.cs.activeKey = s.cs.activeKey ∧
  (s.cs.activeKey ≠ s.streamKey → s'.cs.pathSnapshot = s.cs.pathSnapshot) ∧
  s'.cs.sendingKeys = s.cs.sendingKeys ∧
  s'.cs.input = s.cs.input ∧
  s'.cs.graph = s.cs.graph ∧
  s'.cs.unreadMap = s.cs.unreadMap ∧
  s'.cs.scrollPositions = s.cs.scrollPositions ∧
  s'.cs.pageActiveTreeId = s.cs.pageActiveTreeId ∧
  s'.cs.pageActiveNodeId = s.cs.pageActiveNodeId

/-- `targetTreeId` resolution at the head of `send`:
`let targetTreeId = treeId; if (!targetTreeId && onEnsureTree)
targetTreeId = await onEnsureTree(); if (!targetTreeId) return;`. -/
def resolveTargetTree (treeId ensure : Option String) : Option String :=
  let t1 := if strTruthy treeId then treeId else ensure
  if strTruthy t1 then t1 else none

/-- `effectiveNodeId` (= `activeNodeId ?? defaultParentId`), also the
`parent` sent to the server — `send` computes the same expression for
both. -/
def effNodeIdOf (ctx : SendCtx) : Option String :=
  ctx.activeNodeId.orElse fun _ => ctx.defaultParentId

/-- The synchronization key of the branch being viewed when `send`
starts. -/
def currentKeyOf (ctx : SendCtx) : String := computeKey ctx.treeId (effNodeIdOf ctx)

/-- `` `pending-user-${stamp}` `` of a send. -/
def sendUserPendingId (ctx : SendCtx) : String := "pending-user-" ++ ctx.stamp

/-- `` `pending-assistant-${stamp}` `` of a send. -/
def sendAssistantPendingId (ctx : SendCtx) : String :=
  "pending-assistant-" ++ ctx.stamp

/-- The provisional key the optimistic path is stored under. -/
def pendingKeyOf (ctx : SendCtx) (targetTreeId : String) : String :=
  computeKey (some targetTreeId) (some (sendUserPendingId ctx))

/-- The pre-send snapshot path `send` builds on:
`pathStoreRef.current.get(baseKey) ?? (baseKey === currentKey ?
pathSnapshot : [])` (the `.map(msg => ({...msg}))` shallow copy is the
identity on immutable values). -/
def basePathOf (ctx : SendCtx) (st : ClientState) : List DisplayMessage :=
  match resolveTargetTree ctx.treeId ctx.ensureTree with
  | none => []
  | some targetTreeId =>
      let baseKey := computeKey (some targetTreeId) (effNodeIdOf ctx)
      (st.pathStore baseKey).getD
        (if baseKey = currentKeyOf ctx then st.pathSnapshot else [])

/-- The optimistic phase of `send` (steps 3-5 before the fetch): store
the snapshot-plus-pending path under the provisional key, mark the key
sending, clear the input box, notify the page of the pending user node,
and register the stream session. -/
def optimisticState (ctx : SendCtx) (st : ClientState) (targetTreeId : String) :
    ClientState :=
  let trimmed := (jsTrim st.input)
  let parent := effNodeIdOf ctx
  let upid := sendUserPendingId ctx
  let apid := sendAssistantPendingId ctx
  let basePath := basePathOf ctx st
  let initialPath := basePath ++
    [{ role := "user", content := trimmed, pending := true, id := some upid },
     { role := "assistant", content := "", pending := true, id := some apid }]
  let pendingKey := pendingKeyOf ctx targetTreeId
  let st1 := { st with
    pathStore := fun k => if k = pendingKey then some initialPath else st.pathStore k
    sendingKeys := fun k => if k = pendingKey then true else st.sendingKeys k
    input := "" }
  let st2 := handlePendingUserMessage st1 upid parent trimmed targetTreeId
  { st2 with sessions := fun k =>
    (if k = pendingKey then
      some { pendingAssistantId := apid, assistantId := none, content := ""
             userId := none, active := true }
    else st2.sessions k) }

/-- The stream-loop state right after the optimistic phase. -/
def initialStreamState (ctx : SendCtx) (st : ClientState) (targetTreeId : String) :
    StreamState :=
  { cs := optimisticState ctx st targetTreeId
    streamKey := pendingKeyOf ctx targetTreeId
    serverUserId := none, finalAssistantId := none, finalContent := "" }

/-- `send` from `ChatPane` (lines 204-436 of the source): the guard
phase, the optimistic phase, and the streaming phase.  The returned
`Bool` records whether a network stream was opened. -/
def send (ctx : SendCtx) (st : ClientState) (o : StreamOutcome) :
    ClientState × Bool :=
  if st.sendingKeys (currentKeyOf ctx) then (st, false)
  else
    let trimmed := (jsTrim st.input)
    if trimmed.length = 0 then (st, false)
    else
      match resolveTargetTree ctx.treeId ctx.ensureTree with
      | none => (st, false)
      | some targetTreeId =>
          (runStream (sendUserPendingId ctx) (sendAssistantPendingId ctx)
            targetTreeId (effNodeIdOf ctx) trimmed
            (initialStreamState ctx st targetTreeId) o, true)

/-- The digit alphabet of JavaScript's `Number.prototype.toString(36)`:
`0`-`9` then `a`-`z`. -/
def base36Digit (d : Nat) : Char :=
  if d < 10 then Char.ofNat (48 + d) else Char.ofNat (87 + d)

/-- `n.toString(36)` for a non-negative integer `n` (most significant
digit first; `(0).toString(36) = "0"`). -/
def base36 (n : Nat) : String :=
  if n = 0 then "0" else ⟨((Nat.digits 36 n).map base36Digit).reverse⟩

/-- `const stamp = Date.now().toString(36)` in `send`, as a function of
the millisecond timestamp — the source appends no random suffix. -/
def stampOf (nowMs : Nat) : String := base36 nowMs

/-- `` const userPendingId = `pending-user-${stamp}` `` in `send`. -/
def userPendingIdOf (nowMs : Nat) : String := "pending-user-" ++ stampOf nowMs

/-- `` const assistantPendingId = `pending-assistant-${stamp}` `` in `send`. -/
def assistantPendingIdOf (nowMs : Nat) : String :=
  "pending-assistant-" ++ stampOf nowMs

/-- A send attempt as far as temporary-id generation is concerned: its
start time (milliseconds) and the text being sent (which individuates
two concurrent sends but does not enter the id computation). -/
structure SendEvent where
  nowMs : Nat
  text : String
  deriving DecidableEq, Repr

/-- Claim C6 as stated: any two distinct sends started within the same
millisecond receive distinct temporary user ids. -/
def sameMsDistinctIds : Prop :=
  ∀ a b : SendEvent, a ≠ b → a.nowMs = b.nowMs →
    userPendingIdOf a.nowMs ≠ userPendingIdOf b.nowMs

/-- The inner `while (newlineIndex >= 0)` loop of `send`'s reader:
repeatedly split the buffer at its first newline, emitting the trimmed
prefix, until no newline is left; returns the emitted lines and the
remaining buffer. -/
def emitLines (buf : List Char) : List (List Char) × List Char :=
  if h : '\n' ∈ buf then
    let pre := buf.takeWhile (fun c => c ≠ '\n')
    let post := (buf.dropWhile (fun c => c ≠ '\n')).tail
    let rest := emitLines post
    (trimChars pre :: rest.1, rest.2)
  else ([], buf)
termination_by buf.length
decreasing_by
  have hne : buf.dropWhile (fun c => decide (c ≠ '\n')) ≠ [] := by
    intro hnil
    have hall := List.dropWhile_eq_nil_iff.mp hnil '\n' h
    simp at hall
  have hpos : 0 < (buf.dropWhile (fun c => decide (c ≠ '\n'))).length :=
    List.length_pos.mpr hne
  have hle : (buf.dropWhile (fun c => decide (c ≠ '\n'))).length ≤ buf.length :=
    (List.dropWhile_sublist _).length_le
  simpa [List.length_tail] using Nat.lt_of_lt_of_le (Nat.sub_lt hpos Nat.one_pos) hle

/-- The outer `while (true) { reader.read() }` loop of `send`: decoded
chunks are appended to the buffer, complete lines are extracted and
processed in order; at end of stream the non-empty trimmed remainder is
processed as a final line.  Returns the sequence of (trimmed) lines
handed to `processLine`. -/
def readLoop : List (List Char) → List Char → List (List Char)
  | [], buf => if trimChars buf ≠ [] then [trimChars buf] else []
  | c :: cs, buf =>
      let step := emitLines (buf ++ c)
      step.1 ++ readLoop cs step.2

/-- The lines produced by one run of `send`'s reader over the given
decoded chunks. -/
def processChunks (chunks : List (List Char)) : List (List Char) :=
  readLoop chunks []

/-- Modelled from the spec: the reference line-splitting of §6 — split
the whole (already decoded) stream on newline boundaries, trim each
line, and treat a non-empty trailing partial line as a final frame. -/
def specSplitLines (whole : List Char) : List (List Char) :=
  let step := emitLines whole
  step.1 ++ (if trimChars step.2 ≠ [] then [trimChars step.2] else [])

/-- A 2-D position (`{x, y}` in `ChatGraph.tsx`), with exact rational
coordinates. -/
structure Pos where
  x : ℚ
  y : ℚ
  deriving DecidableEq, Repr

/-- `NODE_HORIZONTAL_GAP` in `ChatGraph.tsx`. -/
def NODE_HORIZONTAL_GAP : ℚ := 260

/-- `NODE_VERTICAL_GAP` in `ChatGraph.tsx`. -/
def NODE_VERTICAL_GAP : ℚ := 160

/-- Assignment into a JS object used as a string-keyed record
(`pos[id] = v`): overwrite in place when the key exists, else append. -/
def setAssoc (l : List (String × Pos)) (id : String) (v : Pos) :
    List (String × Pos) :=
  if l.any (fun e => e.1 = id) then
    l.map (fun e => if e.1 = id then (e.1, v) else e)
  else l ++ [(id, v)]

/-- `childrenMap` of `layoutNodes`: children of `id` in edge order; ids
that are not nodes have no map entry (`childrenMap.get(...)?.push` only
pushes onto entries created for nodes), read back as `[]`. -/
def childrenOf (g : Graph) (id : String) : List String :=
  if g.nodes.any (fun n => n.id = id) then
    (g.edges.filter (fun e => e.source = id)).map (fun e => e.target)
  else []

/-- The `while (queue.length)` BFS loop of `layoutNodes`.  `layerIndex`
is the per-depth slot counter (`layerIndex.get(depth) ?? 0`).  `fuel`
bounds the number of iterations; the source loop terminates on every
input reachable in the application (tree-shaped graphs), and on every
input used by the theorems below the chosen fuel is not exhausted. -/
def bfsLoop : Nat → (String → List String) → List (String × Nat) →
    List (String × Pos) → (Nat → Nat) → List (String × Pos)
  | 0, _, _, pos, _ => pos
  | _ + 1, _, [], pos, _ => pos
  | fuel + 1, children, (id, depth) :: rest, pos, layerIndex =>
      let idx := layerIndex depth
      let pos' := setAssoc pos id
        ⟨(idx : ℚ) * NODE_HORIZONTAL_GAP, (depth : ℚ) * NODE_VERTICAL_GAP⟩
      let layerIndex' := fun d => if d = depth then idx + 1 else layerIndex d
      bfsLoop fuel children
        (rest ++ (children id).map (fun kid => (kid, depth + 1))) pos' layerIndex'

/-- The fixed-column grid of `layoutNodes`'s fallback branch
(`pos[n.id] = {x: (i % 4) * GAP, y: floor(i / 4) * GAP}` over the node
list). -/
def gridPositions (nodes : List GraphNode) : List (String × Pos) :=
  nodes.enum.foldl
    (fun acc e =>
      setAssoc acc e.2.id
        ⟨((e.1 % 4 : Nat) : ℚ) * NODE_HORIZONTAL_GAP,
         ((e.1 / 4 : Nat) : ℚ) * NODE_VERTICAL_GAP⟩)
    []

/-- The recentering pass of `layoutNodes`: translate all positions so
the bounding box is centred on the origin (no-op on an empty record). -/
def recenter (pos : List (String × Pos)) : List (String × Pos) :=
  match pos with
  | [] => []
  | p :: rest =>
      let minX := (rest.map (fun e => e.2.x)).foldl min p.2.x
      let maxX := (rest.map (fun e => e.2.x)).foldl max p.2.x
      let minY := (rest.map (fun e => e.2.y)).foldl min p.2.y
      let maxY := (rest.map (fun e => e.2.y)).foldl max p.2.y
      let offsetX := (minX + maxX) / 2
      let offsetY := (minY + maxY) / 2
      (p :: rest).map (fun e => (e.1, ⟨e.2.x - offsetX, e.2.y - offsetY⟩))

/-- `layoutNodes` from `ChatGraph.tsx`: BFS layering from the parentless
roots, the grid fallback when the BFS assigned no position at all, then
recentering. -/
def layoutNodes (g : Graph) : List (String × Pos) :=
  let hasParent := g.edges.map (fun e => e.target)
  let roots := (g.nodes.filter (fun n => ¬ hasParent.contains n.id)).map
    (fun n => n.id)
  let pos := bfsLoop (g.nodes.length + g.edges.length + 1) (childrenOf g)
    (roots.map (fun id => (id, 0))) [] (fun _ => 0)
  let pos2 := if pos = [] then gridPositions g.nodes else pos
  recenter pos2

/-- Modelled from the spec (§4.4): the reference layout of claim C8 —
identical BFS layering and recentering, but with the fixed-column grid
fallback taken "if the graph has no edges (isolated nodes)". -/
def specLayoutRef (g : Graph) : List (String × Pos) :=
  if g.edges = [] then recenter (gridPositions g.nodes)
  else
    let hasParent := g.edges.map (fun e => e.target)
    let roots := (g.nodes.filter (fun n => ¬ hasParent.contains n.id)).map
      (fun n => n.id)
    let pos := bfsLoop (g.nodes.length + g.edges.length + 1) (childrenOf g)
      (roots.map (fun id => (id, 0))) [] (fun _ => 0)
    recenter pos

/-- Whether processing this frame throws (`error` frames and malformed
lines do; `start`, `token`, `end` and unrecognised frames do not). -/
def frameThrows : Frame → Bool
  | .errorFrame _ => true
  | .malformed => true
  | _ => false

/-- Whether this frame is an `end` frame. -/
def frameIsEnd : Frame → Bool
  | .endFrame _ _ => true
  | _ => false

/-- Five isolated nodes (no edges), the input discriminating the code's
fallback behaviour from the spec's. -/
def isolatedFive : Graph :=
  { nodes := ["n1", "n2", "n3", "n4", "n5"].map (fun i =>
      { id := i, role := "user", label := "", parent_id := none
        user_label := none, assistant_label := none })
    edges := [] }

/-- Two isolated nodes (no edges). -/
def isolatedTwo : Graph :=
  { nodes := ["a", "b"].map (fun i =>
      { id := i, role := "user", label := "", parent_id := none
        user_label := none, assistant_label := none })
    edges := [] }

/-- A client state with every store empty. -/
def emptyState : ClientState where
  pathStore := fun _ => none
  pathSnapshot := []
  activeKey := ""
  sendingKeys := fun _ => false
  sessions := fun _ => none
  input := ""
  graph := { nodes := [], edges := [] }
  pageActiveTreeId := none
  pageActiveNodeId := none
  unreadMap := fun _ => none
  scrollPositions := fun _ => none

/-- The single horizontal BFS row the code actually produces for an
edgeless graph: the `i`-th id at `x = i * NODE_HORIZONTAL_GAP`, all at
`y = 0` (before recentering). -/
def rowFrom (k : ℚ) : List String → List (String × Pos)
  | [] => []
  | id :: rest => (id, ⟨k * NODE_HORIZONTAL_GAP, 0⟩) :: rowFrom (k + 1) rest

/-! ### Helper lemmas -/

theorem map_id_of_mem {α : Type} {l : List α} {f : α → α}
    (h : ∀ x ∈ l, f x = x) : l.map f = l := by
  induction l with
  | nil => rfl
  | cons a as ih =>
      simp only [List.map_cons, h a (by simp), List.cons.injEq, true_and]
      exact ih fun x hx => h x (by simp [hx])

theorem filter_id_of_mem {α : Type} {l : List α} {p : α → Bool}
    (h : ∀ x ∈ l, p x = true) : l.filter p = l := by
  induction l with
  | nil => rfl
  | cons a as ih =>
      rw [List.filter_cons_of_pos (h a (by simp))]
      exact congrArg _ (ih fun x hx => h x (by simp [hx]))

/-! ### C9 — viewport clamp -/

/-- C9: for the viewport clamp, a degenerate range `min > max` collapses
to the midpoint `(min + max) / 2` (which lies between `max` and `min`);
for a proper range the result lies in `[min, max]` and equals the value
whenever the value is already in range.  Over the rational embedding the
function is total, so no invalid (NaN-like) result can arise. -/
theorem clamp_spec (value lo hi : ℚ) :
    (lo > hi → clamp value lo hi = (lo + hi) / 2 ∧
      hi ≤ clamp value lo hi ∧ clamp value lo hi ≤ lo) ∧
    (lo ≤ hi → lo ≤ clamp value lo hi ∧ clamp value lo hi ≤ hi ∧
      (lo ≤ value → value ≤ hi → clamp value lo hi = value)) := by
  constructor
  · intro hlt
    rw [clamp, if_pos hlt]
    refine ⟨rfl, by linarith, by linarith⟩
  · intro hle
    rw [clamp, if_neg (not_lt.mpr hle)]
    refine ⟨le_min (le_max_right _ _) hle, min_le_right _ _, fun h1 h2 => ?_⟩
    rw [max_eq_left h1, min_eq_left h2]

/-- Witness for `clamp_spec` at concrete inputs: a proper range clamps a
in-range value to itself, a degenerate range collapses to the midpoint. -/
theorem clamp_spec_witness :
    clamp 7 (0 : ℚ) 10 = 7 ∧ clamp 3 (10 : ℚ) 0 = 5 := by
  constructor
  · exact ((clamp_spec 7 0 10).2 (by norm_num)).2.2 (by norm_num) (by norm_num)
  · have h := ((clamp_spec 3 10 0).1 (by norm_num)).1
    rw [h]; norm_num

/-! ### C10 — unread-map invariant -/

/-- C10: every tree id present in the unread map carries a non-empty
set, and `markNodeUnread`, `markNodeRead`, `pruneUnreadForTree` and the
tree-deletion cleanup all preserve this invariant (an emptied set is
removed from the map rather than left behind). -/
theorem unreadInv_preserved (m : UnreadMap) (t n tid : String)
    (valid : Finset String) (hm : UnreadInv m) :
    UnreadInv (markNodeUnread m t n) ∧ UnreadInv (markNodeRead m t n) ∧
    UnreadInv (pruneUnreadForTree m tid valid) ∧
    UnreadInv (deleteTreeUnread m t) := by
  refine ⟨?_, ?_, ?_, ?_⟩
  · intro t' s' hs'
    simp only [markNodeUnread] at hs'
    split at hs'
    · exact hm t' s' hs'
    · split at hs'
      · exact hm t' s' hs'
      · by_cases ht : t' = t
        · subst ht
          simp only [if_pos rfl] at hs'
          cases hs'
          exact Finset.insert_nonempty _ _
        · simp only [if_neg ht] at hs'
          exact hm t' s' hs'
  · intro t' s' hs'
    simp only [markNodeRead] at hs'
    split at hs'
    · exact hm t' s' hs'
    · cases hmt : m t with
      | none => rw [hmt] at hs'; exact hm t' s' hs'
      | some existing =>
          rw [hmt] at hs'
          simp only at hs'
          by_cases hmem : n ∉ existing
          · rw [if_pos hmem] at hs'; exact hm t' s' hs'
          · rw [if_neg hmem] at hs'
            by_cases hemp : existing.erase n = ∅
            · rw [if_pos hemp] at hs'
              by_cases ht : t' = t
              · subst ht; simp only [if_pos rfl] at hs'; cases hs'
              · simp only [if_neg ht] at hs'
                exact hm t' s' hs'
            · rw [if_neg hemp] at hs'
              by_cases ht : t' = t
              · subst ht
                simp only [if_pos rfl] at hs'
                cases hs'
                exact Finset.nonempty_iff_ne_empty.mpr hemp
              · simp only [if_neg ht] at hs'
                exact hm t' s' hs'
  · intro t' s' hs'
    simp only [pruneUnreadForTree] at hs'
    cases hmt : m tid with
    | none => rw [hmt] at hs'; exact hm t' s' hs'
    | some existing =>
        rw [hmt] at hs'
        simp only at hs'
        by_cases hsame : existing.filter (fun id => id ∈ valid) = existing
        · rw [if_pos hsame] at hs'; exact hm t' s' hs'
        · rw [if_neg hsame] at hs'
          by_cases hemp : existing.filter (fun id => id ∈ valid) = ∅
          · rw [if_pos hemp] at hs'
            by_cases ht : t' = tid
            · subst ht; simp only [if_pos rfl] at hs'; cases hs'
            · simp only [if_neg ht] at hs'
              exact hm t' s' hs'
          · rw [if_neg hemp] at hs'
            by_cases ht : t' = tid
            · subst ht
              simp only [if_pos rfl] at hs'
              cases hs'
              exact Finset.nonempty_iff_ne_empty.mpr hemp
            · simp only [if_neg ht] at hs'
              exact hm t' s' hs'
  · intro t' s' hs'
    simp only [deleteTreeUnread] at hs'
    cases hmt : m t with
    | none => rw [hmt] at hs'; exact hm t' s' hs'
    | some existing =>
        rw [hmt] at hs'
        simp only at hs'
        by_cases ht : t' = t
        · subst ht; simp only [if_pos rfl] at hs'; cases hs'
        · simp only [if_neg ht] at hs'
          exact hm t' s' hs'

/-- Witness for `unreadInv_preserved` at the empty map. -/
theorem unreadInv_preserved_witness :
    UnreadInv (markNodeUnread (fun _ => none) "t1" "n1") ∧
    UnreadInv (markNodeRead (fun _ => none) "t1" "n1") ∧
    UnreadInv (pruneUnreadForTree (fun _ => none) "t1" ∅) ∧
    UnreadInv (deleteTreeUnread (fun _ => none) "t1") :=
  unreadInv_preserved (fun _ => none) "t1" "n1" "t1" ∅
    (fun _ _ h => Option.noConfusion h)

/-! ### Send/stream unfolding helpers (C1, C2, C3) -/

theorem pending_ids_distinct_roles (x y : String) :
    "pending-user-" ++ x ≠ "pending-assistant-" ++ y := by
  intro h
  have hd := congrArg String.data h
  rw [String.data_append, String.data_append] at hd
  have h1 : ("pending-user-" : String).data =
      ['p','e','n','d','i','n','g','-','u','s','e','r','-'] := rfl
  have h2 : ("pending-assistant-" : String).data =
      ['p','e','n','d','i','n','g','-','a','s','s','i','s','t','a','n','t','-'] := rfl
  rw [h1, h2] at hd
  simp at hd


theorem send_open (ctx : SendCtx) (st : ClientState) (o : StreamOutcome)
    (T : String)
    (hsend : st.sendingKeys (currentKeyOf ctx) = false)
    (htrim : (jsTrim st.input) ≠ "")
    (hres : resolveTargetTree ctx.treeId ctx.ensureTree = some T) :
    send ctx st o =
      (runStream (sendUserPendingId ctx) (sendAssistantPendingId ctx) T
        (effNodeIdOf ctx) (jsTrim st.input) (initialStreamState ctx st T) o, true) := by
  have hlen : ¬ (jsTrim st.input).length = 0 := by
    intro h0
    exact htrim (String.ext (List.length_eq_zero.mp h0))
  simp only [send, hsend, Bool.false_eq_true, if_false, hres, hlen]

theorem optimisticState_pathStore (ctx : SendCtx) (st : ClientState) (T : String) :
    (optimisticState ctx st T).pathStore = fun k =>
      if k = pendingKeyOf ctx T then
        some (basePathOf ctx st ++
          [{ role := "user", content := (jsTrim st.input), pending := true,
             id := some (sendUserPendingId ctx) },
           { role := "assistant", content := "", pending := true,
             id := some (sendAssistantPendingId ctx) }])
      else st.pathStore k := rfl

theorem optimisticState_sessions (ctx : SendCtx) (st : ClientState) (T : String) :
    (optimisticState ctx st T).sessions = fun k =>
      if k = pendingKeyOf ctx T then
        some { pendingAssistantId := sendAssistantPendingId ctx,
               assistantId := none, content := "", userId := none, active := true }
      else st.sessions k := rfl

theorem optimisticState_sendingKeys (ctx : SendCtx) (st : ClientState) (T : String) :
    (optimisticState ctx st T).sendingKeys = fun k =>
      if k = pendingKeyOf ctx T then true else st.sendingKeys k := rfl

theorem optimisticState_input (ctx : SendCtx) (st : ClientState) (T : String) :
    (optimisticState ctx st T).input = "" := rfl

theorem optimisticState_graph (ctx : SendCtx) (st : ClientState) (T : String) :
    (optimisticState ctx st T).graph =
      (handlePendingUserMessage st (sendUserPendingId ctx) (effNodeIdOf ctx)
        (jsTrim st.input) T).graph := rfl

theorem optimisticState_unreadMap (ctx : SendCtx) (st : ClientState) (T : String) :
    (optimisticState ctx st T).unreadMap = st.unreadMap := rfl

theorem optimisticState_scrollPositions (ctx : SendCtx) (st : ClientState)
    (T : String) :
    (optimisticState ctx st T).scrollPositions = st.scrollPositions := rfl

theorem handleAfterSend_pathStore (st : ClientState) (aid tid pid : String) :
    (handleAfterSend st aid tid pid).pathStore = st.pathStore := by
  unfold handleAfterSend
  split <;> rfl

theorem processFrames_append (upid apid T : String) (l1 l2 : List Frame) :
    ∀ s, processFrames upid apid T s (l1 ++ l2) =
      match processFrames upid apid T s l1 with
      | .ok s' => processFrames upid apid T s' l2
      | .error e => .error e := by
  induction l1 with
  | nil => intro s; rfl
  | cons f fs ih =>
      intro s
      simp only [List.cons_append, processFrames]
      cases hp : processFrame upid apid T s f with
      | ok s' => exact ih s'
      | error e => rfl

/-- Invariant of the token-frame loop: under a provisional key holding
the snapshot plus the confirmed user entry `u'` and the pending
assistant entry, each `token` frame only grows the assistant entry's
content (in place), never throws, never migrates. -/
theorem token_loop_inv (upid apid T : String) (uid : Option String)
    (basePath : List DisplayMessage) (u' : DisplayMessage)
    (hu : u'.id ≠ some apid)
    (hbase : ∀ m ∈ basePath, m.id ≠ some apid) :
    ∀ (tokens : List (Option String)) (s : StreamState) (acc : String),
      s.cs.pathStore s.streamKey = some (basePath ++
        [u', { role := "assistant", content := acc, pending := true,
               id := some apid }]) →
      s.cs.sessions s.streamKey = some ⟨apid, none, acc, uid, true⟩ →
      s.serverUserId = uid →
      s.finalAssistantId = none →
      ∃ (s' : StreamState) (acc' : String),
        processFrames upid apid T s (tokens.map Frame.token) = .ok s' ∧
        s'.streamKey = s.streamKey ∧
        s'.cs.pathStore s.streamKey = some (basePath ++
          [u', { role := "assistant", content := acc', pending := true,
                 id := some apid }]) ∧
        s'.cs.sessions s.streamKey = some ⟨apid, none, acc', uid, true⟩ ∧
        s'.serverUserId = uid ∧ s'.finalAssistantId = none ∧
        (∀ k, k ≠ s.streamKey → s'.cs.pathStore k = s.cs.pathStore k) ∧
        (∀ k, k ≠ s.streamKey → s'.cs.sessions k = s.cs.sessions k) ∧
        s'.cs.sendingKeys = s.cs.sendingKeys ∧
        s'.cs.input = s.cs.input ∧ s'.cs.graph = s.cs.graph ∧
        s'.cs.unreadMap = s.cs.unreadMap ∧
        s'.cs.scrollPositions = s.cs.scrollPositions ∧
        s'.cs.pageActiveTreeId = s.cs.pageActiveTreeId := by
  intro tokens
  induction tokens with
  | nil =>
      intro s acc h2 h3 h4 h5
      exact ⟨s, acc, rfl, rfl, h2, h3, h4, h5, fun _ _ => rfl, fun _ _ => rfl,
        rfl, rfl, rfl, rfl, rfl, rfl⟩
  | cons d rest ih =>
      intro s acc h2 h3 h4 h5
      rw [List.map_cons]
      simp only [processFrames, processFrame]
      set delta := d.getD "" with hdelta
      have hmap : (basePath ++
          [u', { role := "assistant", content := acc, pending := true,
                 id := some apid }]).map (fun msg =>
            if msg.id = some apid then
              { msg with content := acc ++ delta, pending := true }
            else msg) = basePath ++
          [u', { role := "assistant", content := acc ++ delta, pending := true,
                 id := some apid }] := by
        rw [List.map_append]
        congr 1
        · exact map_id_of_mem fun m hm => if_neg (by simp [hbase m hm])
        · simp [hu]
      obtain ⟨s', acc', hrun, hkey, hpath, hsess, hsrv, hfin, hoffp, hoffs,
        hsend', hinput', hgraph', hunread', hscroll', hpage'⟩ :=
        ih { s with cs := (updatePathForKey
            ({ s.cs with sessions := fun k =>
                (if k = s.streamKey then
                  (s.cs.sessions s.streamKey).map (fun ss =>
                    { ss with content := ss.content ++ delta })
                else s.cs.sessions k) })
            s.streamKey
            (fun prev => prev.map (fun msg =>
              if msg.id = some apid then
                { msg with
                  content := ((((s.cs.sessions s.streamKey).map (fun ss =>
                    { ss with content := ss.content ++ delta })).map
                      (fun ss => ss.content)).getD delta),
                  pending := true }
              else msg))) }
          (acc ++ delta)
          (by simp [updatePathForKey, h2, h3, hmap])
          (by simp [updatePathForKey, h3])
          h4 h5
      refine ⟨s', acc', ?_, hkey, hpath, hsess, hsrv, hfin, ?_, ?_, ?_, ?_, ?_,
        ?_, ?_, ?_⟩
      · exact hrun
      · intro k hk
        rw [hoffp k hk]
        simp [updatePathForKey, hk]
      · intro k hk
        rw [hoffs k hk]
        simp [updatePathForKey, hk]
      · rw [hsend']; rfl
      · rw [hinput']; rfl
      · rw [hgraph']; rfl
      · rw [hunread']; rfl
      · rw [hscroll']; rfl
      · rw [hpage']; rfl

theorem updatePathForKey_at (st : ClientState) (key : String)
    (f : List DisplayMessage → List DisplayMessage) :
    (updatePathForKey st key f).pathStore key =
      some (f ((st.pathStore key).getD [])) := by
  simp [updatePathForKey]

theorem updatePathForKey_off (st : ClientState) (key : String)
    (f : List DisplayMessage → List DisplayMessage) (k : String) (hk : k ≠ key) :
    (updatePathForKey st key f).pathStore k = st.pathStore k := by
  simp [updatePathForKey, hk]

/-- Effect of the `start` frame: the pending user entry is confirmed in
place (server id when one is carried, `pending := false`), the session
records the server user id, and nothing else moves. -/
theorem start_step (upid apid T : String) (uid : Option String)
    (s : StreamState) (bp : List DisplayMessage) (trimmed : String)
    (hneq : apid ≠ upid)
    (hbase : ∀ m ∈ bp, m.id ≠ some upid)
    (hpath : s.cs.pathStore s.streamKey = some (bp ++
      [{ role := "user", content := trimmed, pending := true, id := some upid },
       { role := "assistant", content := "", pending := true, id := some apid }]))
    (hsess : s.cs.sessions s.streamKey = some ⟨apid, none, "", none, true⟩) :
    ∃ s1, processFrame upid apid T s (Frame.start uid) = .ok s1 ∧
      s1.streamKey = s.streamKey ∧
      s1.cs.pathStore s.streamKey = some (bp ++
        [{ role := "user", content := trimmed, pending := false,
           id := some (uid.getD upid) },
         { role := "assistant", content := "", pending := true,
           id := some apid }]) ∧
      s1.cs.sessions s.streamKey = some ⟨apid, none, "", uid, true⟩ ∧
      s1.serverUserId = uid ∧ s1.finalAssistantId = s.finalAssistantId ∧
      (∀ k, k ≠ s.streamKey → s1.cs.pathStore k = s.cs.pathStore k) ∧
      (∀ k, k ≠ s.streamKey → s1.cs.sessions k = s.cs.sessions k) ∧
      s1.cs.sendingKeys = s.cs.sendingKeys ∧ s1.cs.input = s.cs.input ∧
      s1.cs.graph = s.cs.graph ∧ s1.cs.unreadMap = s.cs.unreadMap ∧
      s1.cs.scrollPositions = s.cs.scrollPositions ∧
      s1.cs.pageActiveTreeId = s.cs.pageActiveTreeId := by
  have hm : (bp ++
      ([{ role := "user", content := trimmed, pending := true, id := some upid },
        { role := "assistant", content := "", pending := true,
          id := some apid }] : List DisplayMessage)).map
        (fun (msg : DisplayMessage) =>
          if msg.id = some upid then
            { msg with id := (match uid with | some u => some u | none => msg.id),
                       pending := false }
          else msg) = bp ++
      [{ role := "user", content := trimmed, pending := false,
         id := some (uid.getD upid) },
       { role := "assistant", content := "", pending := true,
         id := some apid }] := by
    rw [List.map_append]
    congr 1
    · exact map_id_of_mem fun m hm => if_neg (by simp [hbase m hm])
    · cases uid <;> simp [hneq]
  refine ⟨_, rfl, rfl, ?_, ?_, rfl, rfl, ?_, ?_, rfl, rfl, rfl, rfl, rfl, rfl⟩
  · dsimp only
    rw [updatePathForKey_at]
    rw [hpath, Option.getD_some]
    exact congrArg some hm
  · simp [updatePathForKey, hsess]
  · intro k hk
    exact updatePathForKey_off _ _ _ _ hk
  · intro k hk
    simp [updatePathForKey, hk]

/-- Effect of a protocol-conforming `end` frame carrying a truthy
assistant id: the assistant entry is finalised and the cache entry is
migrated to the key of the confirmed assistant id. -/
theorem end_step (upid apid T : String) (uid : Option String)
    (a c trimmed : String) (s : StreamState) (bp : List DisplayMessage)
    (acc : String)
    (ha : a ≠ "") (hne : upid ≠ apid) (huid : uid ≠ some apid)
    (hbase : ∀ m ∈ bp, m.id ≠ some upid ∧ m.id ≠ some apid)
    (hsrv : s.serverUserId = uid)
    (hpath : s.cs.pathStore s.streamKey = some (bp ++
      [{ role := "user", content := trimmed, pending := false,
         id := some (uid.getD upid) },
       { role := "assistant", content := acc, pending := true,
         id := some apid }])) :
    ∃ s', processFrame upid apid T s (Frame.endFrame (some a) (some c)) = .ok s' ∧
      s'.finalAssistantId = some a ∧
      s'.cs.pathStore (computeKey (some T) (some a)) = some (bp ++
        [{ role := "user", content := trimmed, pending := false,
           id := some (uid.getD upid) },
         { role := "assistant", content := c, pending := false,
           id := some a }]) := by
  have hu'A : ¬ (some (uid.getD upid) = some apid) := by
    cases uid with
    | none => simpa using hne
    | some u => simpa using fun h => huid (by rw [h])
  have hmap : (bp ++
      ([{ role := "user", content := trimmed, pending := false,
          id := some (uid.getD upid) },
        { role := "assistant", content := acc, pending := true,
          id := some apid }] : List DisplayMessage)).map
        (fun (msg : DisplayMessage) =>
          if msg.id = some apid then
            { msg with
              id := (match (some a : Option String) with | some a => some a | none => msg.id),
              content := (some c).getD "", pending := false }
          else if msg.id = some upid ∧ strTruthy s.serverUserId then
            { msg with id := s.serverUserId, pending := false }
          else msg) = bp ++
      [{ role := "user", content := trimmed, pending := false,
         id := some (uid.getD upid) },
       { role := "assistant", content := c, pending := false,
         id := some a }] := by
    rw [List.map_append]
    congr 1
    · refine map_id_of_mem fun m hm => ?_
      rw [if_neg (by simp [(hbase m hm).2]), if_neg]
      rw [not_and]
      intro hcontra
      exact absurd hcontra (by simp [(hbase m hm).1])
    · rw [List.map_cons, List.map_cons, List.map_nil]
      rw [hsrv]
      congr 1
      · rw [if_neg hu'A]
        cases uid with
        | none =>
            rw [if_neg]
            rw [not_and]
            intro _
            simp [strTruthy]
        | some u =>
            by_cases hu0 : u = ""
            · rw [if_neg]
              rw [not_and]
              intro _
              simp [strTruthy, hu0]
            · by_cases huu : u = upid
              · rw [if_pos]
                · rfl
                · exact ⟨by simp [huu], by simp [strTruthy, hu0]⟩
              · rw [if_neg]
                rw [not_and]
                intro hcontra
                exact absurd (by simpa using hcontra) huu
      · rw [if_pos rfl]
        rfl
  have htruthy : strTruthy (some a) = true := by simp [strTruthy, ha]
  refine ⟨_, rfl, ?_, ?_⟩
  · rw [if_pos htruthy]
    unfold migrateStreamKey
    split
    · rfl
    · split <;> rfl
  · rw [if_pos htruthy]
    unfold migrateStreamKey
    split
    · next hkk =>
        rw [hkk]
        try dsimp only
        simp only [updatePathForKey, hpath, Option.getD_some, eq_self_iff_true,
          if_true]
        exact congrArg some hmap
    · next hkk =>
        try dsimp only
        split
        all_goals
          simp only [updatePathForKey, hpath, Option.getD_some, eq_self_iff_true,
            if_true]
        all_goals exact congrArg some hmap


theorem successTail_pathStore (upid T a : String) (s : StreamState) :
    (successTail upid T a s).pathStore = s.cs.pathStore := by
  unfold successTail
  rw [handleAfterSend_pathStore]

theorem clientState_eq_of_fields (a b : ClientState)
    (h1 : a.pathStore = b.pathStore) (h2 : a.pathSnapshot = b.pathSnapshot)
    (h3 : a.activeKey = b.activeKey) (h4 : a.sendingKeys = b.sendingKeys)
    (h5 : a.sessions = b.sessions) (h6 : a.input = b.input)
    (h7 : a.graph = b.graph) (h8 : a.pageActiveTreeId = b.pageActiveTreeId)
    (h9 : a.pageActiveNodeId = b.pageActiveNodeId)
    (h10 : a.unreadMap = b.unreadMap)
    (h11 : a.scrollPositions = b.scrollPositions) : a = b := by
  cases a
  cases b
  congr 1

theorem streamPreserve_refl (s : StreamState) : StreamPreserve s s :=
  ⟨rfl, rfl, fun _ _ => rfl, fun _ _ => rfl, rfl, fun _ => rfl, rfl, rfl, rfl,
   rfl, rfl, rfl, rfl⟩

theorem streamPreserve_trans {s s1 s2 : StreamState}
    (h : StreamPreserve s s1) (h' : StreamPreserve s1 s2) :
    StreamPreserve s s2 := by
  obtain ⟨hk, hf, hp, hs, ha, hsn, hsk, hi, hg, hu, hsc, hpt, hpn⟩ := h
  obtain ⟨hk', hf', hp', hs', ha', hsn', hsk', hi', hg', hu', hsc', hpt', hpn'⟩ := h'
  refine ⟨hk'.trans hk, hf'.trans hf, ?_, ?_, ha'.trans ha, ?_,
    hsk'.trans hsk, hi'.trans hi, hg'.trans hg, hu'.trans hu, hsc'.trans hsc,
    hpt'.trans hpt, hpn'.trans hpn⟩
  · intro k hkk
    rw [hp' k (hk ▸ hkk), hp k hkk]
  · intro k hkk
    rw [hs' k (hk ▸ hkk), hs k hkk]
  · intro hne
    have hne1 : s1.cs.activeKey ≠ s1.streamKey := by
      rw [ha, hk]
      exact hne
    rw [hsn' hne1, hsn hne]

theorem streamPreserve_start (upid apid T : String) (uid : Option String)
    (s : StreamState) :
    ∃ s1, processFrame upid apid T s (Frame.start uid) = .ok s1 ∧
      StreamPreserve s s1 := by
  refine ⟨_, rfl, rfl, rfl, ?_, ?_, rfl, ?_, rfl, rfl, rfl, rfl, rfl, rfl, rfl⟩
  · intro k hkk
    exact updatePathForKey_off _ _ _ _ hkk
  · intro k hkk
    simp [updatePathForKey, hkk]
  · intro hne
    have h' : ¬ (s.streamKey = s.cs.activeKey) := fun e => hne e.symm
    show (if s.streamKey = s.cs.activeKey then _ else s.cs.pathSnapshot) = _
    rw [if_neg h']

theorem streamPreserve_token (upid apid T : String) (d : Option String)
    (s : StreamState) :
    ∃ s1, processFrame upid apid T s (Frame.token d) = .ok s1 ∧
      StreamPreserve s s1 := by
  refine ⟨_, rfl, rfl, rfl, ?_, ?_, rfl, ?_, rfl, rfl, rfl, rfl, rfl, rfl, rfl⟩
  · intro k hkk
    exact updatePathForKey_off _ _ _ _ hkk
  · intro k hkk
    simp [updatePathForKey, hkk]
  · intro hne
    have h' : ¬ (s.streamKey = s.cs.activeKey) := fun e => hne e.symm
    show (if s.streamKey = s.cs.activeKey then _ else s.cs.pathSnapshot) = _
    rw [if_neg h']

/-- Any run of frames containing no `end` frame keeps the stream on the
provisional key and touches nothing outside the cache entry and session
of that key; it completes normally unless it hits an `error` frame or a
malformed line, and either way the state reached satisfies
`StreamPreserve`. -/
theorem no_end_run (upid apid T : String) :
    ∀ (fs : List Frame), (∀ a c, Frame.endFrame a c ∉ fs) →
      ∀ s : StreamState,
      ∃ s', (processFrames upid apid T s fs = .ok s' ∨
             processFrames upid apid T s fs = .error s') ∧
        ((Frame.malformed ∉ fs ∧ ∀ m, Frame.errorFrame m ∉ fs) →
          processFrames upid apid T s fs = .ok s') ∧
        StreamPreserve s s' := by
  intro fs
  induction fs with
  | nil =>
      intro _ s
      exact ⟨s, Or.inl rfl, fun _ => rfl, streamPreserve_refl s⟩
  | cons f rest ih =>
      intro hend s
      have hend' : ∀ a c, Frame.endFrame a c ∉ rest :=
        fun a c hm => hend a c (List.mem_cons_of_mem _ hm)
      cases f with
      | start uid =>
          obtain ⟨s1, hp, hR⟩ := streamPreserve_start upid apid T uid s
          obtain ⟨s', hd, ho, hR'⟩ := ih hend' s1
          have hstep : processFrames upid apid T s (Frame.start uid :: rest) =
              processFrames upid apid T s1 rest := by
            simp only [processFrames, hp]
          refine ⟨s', by rw [hstep]; exact hd, ?_, streamPreserve_trans hR hR'⟩
          intro hclean
          rw [hstep]
          exact ho ⟨fun hm => hclean.1 (List.mem_cons_of_mem _ hm),
            fun m hm => hclean.2 m (List.mem_cons_of_mem _ hm)⟩
      | token d =>
          obtain ⟨s1, hp, hR⟩ := streamPreserve_token upid apid T d s
          obtain ⟨s', hd, ho, hR'⟩ := ih hend' s1
          have hstep : processFrames upid apid T s (Frame.token d :: rest) =
              processFrames upid apid T s1 rest := by
            simp only [processFrames, hp]
          refine ⟨s', by rw [hstep]; exact hd, ?_, streamPreserve_trans hR hR'⟩
          intro hclean
          rw [hstep]
          exact ho ⟨fun hm => hclean.1 (List.mem_cons_of_mem _ hm),
            fun m hm => hclean.2 m (List.mem_cons_of_mem _ hm)⟩
      | otherFrame =>
          obtain ⟨s', hd, ho, hR'⟩ := ih hend' s
          have hstep : processFrames upid apid T s (Frame.otherFrame :: rest) =
              processFrames upid apid T s rest := by
            simp only [processFrames, processFrame]
          refine ⟨s', by rw [hstep]; exact hd, ?_, hR'⟩
          intro hclean
          rw [hstep]
          exact ho ⟨fun hm => hclean.1 (List.mem_cons_of_mem _ hm),
            fun m hm => hclean.2 m (List.mem_cons_of_mem _ hm)⟩
      | errorFrame m =>
          refine ⟨s, Or.inr ?_, ?_, streamPreserve_refl s⟩
          · simp only [processFrames, processFrame]
          · intro hclean
            exact absurd (List.mem_cons_self _ _) (hclean.2 m)
      | malformed =>
          refine ⟨s, Or.inr ?_, ?_, streamPreserve_refl s⟩
          · simp only [processFrames, processFrame]
          · intro hclean
            exact absurd (List.mem_cons_self _ _) hclean.1
      | endFrame a c =>
          exact absurd (List.mem_cons_self _ _) (hend a c)

theorem optimisticState_pathSnapshot (ctx : SendCtx) (st : ClientState)
    (T : String) : (optimisticState ctx st T).pathSnapshot = st.pathSnapshot := rfl

theorem optimisticState_activeKey (ctx : SendCtx) (st : ClientState)
    (T : String) : (optimisticState ctx st T).activeKey = st.activeKey := rfl

theorem optimisticState_pageActiveTreeId (ctx : SendCtx) (st : ClientState)
    (T : String) :
    (optimisticState ctx st T).pageActiveTreeId = st.pageActiveTreeId := rfl

theorem optimisticState_pageActiveNodeId (ctx : SendCtx) (st : ClientState)
    (T : String) :
    (optimisticState ctx st T).pageActiveNodeId =
      (if some T = st.pageActiveTreeId then some (sendUserPendingId ctx)
       else st.pageActiveNodeId) := rfl

theorem catchFalse_pathStore (upid apid : String) (parent : Option String)
    (trimmed : String) (s : StreamState) (k : String) :
    (catchBranch false upid apid parent trimmed s).pathStore k =
      if k = s.streamKey then none else s.cs.pathStore k := by
  by_cases hk : k = s.streamKey <;>
    simp [catchBranch, updatePathForKey, handlePendingUserMessageFailed, hk]

theorem catchFalse_pathSnapshot (upid apid : String) (parent : Option String)
    (trimmed : String) (s : StreamState) (h : s.cs.activeKey ≠ s.streamKey) :
    (catchBranch false upid apid parent trimmed s).pathSnapshot =
      s.cs.pathSnapshot := by
  have h' : ¬ (s.streamKey = s.cs.activeKey) := fun e => h e.symm
  show (if s.streamKey = s.cs.activeKey then _ else s.cs.pathSnapshot) = _
  rw [if_neg h']

theorem catchFalse_activeKey (upid apid : String) (parent : Option String)
    (trimmed : String) (s : StreamState) :
    (catchBranch false upid apid parent trimmed s).activeKey =
      s.cs.activeKey := rfl

theorem catchFalse_sendingKeys (upid apid : String) (parent : Option String)
    (trimmed : String) (s : StreamState) (k : String) :
    (catchBranch false upid apid parent trimmed s).sendingKeys k =
      (if k = s.streamKey then false else s.cs.sendingKeys k) := rfl

theorem catchFalse_sessions (upid apid : String) (parent : Option String)
    (trimmed : String) (s : StreamState) (k : String) :
    (catchBranch false upid apid parent trimmed s).sessions k =
      (if k = s.streamKey then none else s.cs.sessions k) := rfl

theorem catchFalse_input (upid apid : String) (parent : Option String)
    (trimmed : String) (s : StreamState) :
    (catchBranch false upid apid parent trimmed s).input = trimmed := rfl

theorem catchFalse_graph (upid apid : String) (parent : Option String)
    (trimmed : String) (s : StreamState) :
    (catchBranch false upid apid parent trimmed s).graph =
      { nodes := s.cs.graph.nodes.filter (fun n => n.id ≠ upid)
        edges := s.cs.graph.edges.filter
          (fun e => e.source ≠ upid ∧ e.target ≠ upid) } := rfl

theorem catchFalse_pageActiveTreeId (upid apid : String)
    (parent : Option String) (trimmed : String) (s : StreamState) :
    (catchBranch false upid apid parent trimmed s).pageActiveTreeId =
      s.cs.pageActiveTreeId := rfl

theorem catchFalse_pageActiveNodeId (upid apid : String)
    (parent : Option String) (trimmed : String) (s : StreamState) :
    (catchBranch false upid apid parent trimmed s).pageActiveNodeId =
      (if s.cs.pageActiveNodeId = some upid then parent
       else s.cs.pageActiveNodeId) := rfl

theorem catchFalse_unreadMap (upid apid : String) (parent : Option String)
    (trimmed : String) (s : StreamState) :
    (catchBranch false upid apid parent trimmed s).unreadMap =
      s.cs.unreadMap := rfl

theorem catchFalse_scrollPositions (upid apid : String)
    (parent : Option String) (trimmed : String) (s : StreamState) :
    (catchBranch false upid apid parent trimmed s).scrollPositions =
      s.cs.scrollPositions := rfl

theorem catchTrue_pathStore_at (upid apid : String) (parent : Option String)
    (trimmed : String) (s : StreamState) :
    (catchBranch true upid apid parent trimmed s).pathStore s.streamKey =
      none := by
  simp [catchBranch]

theorem catchTrue_sessions_at (upid apid : String) (parent : Option String)
    (trimmed : String) (s : StreamState) :
    (catchBranch true upid apid parent trimmed s).sessions s.streamKey =
      none := by
  simp [catchBranch]

theorem catchTrue_sendingKeys_at (upid apid : String) (parent : Option String)
    (trimmed : String) (s : StreamState) :
    (catchBranch true upid apid parent trimmed s).sendingKeys s.streamKey =
      false := by
  simp [catchBranch]

theorem catchTrue_graph_nodes (upid apid : String) (parent : Option String)
    (trimmed : String) (s : StreamState) :
    ∀ n ∈ (catchBranch true upid apid parent trimmed s).graph.nodes,
      n.id ≠ upid := by
  intro n hn
  have hg : (catchBranch true upid apid parent trimmed s).graph.nodes =
      s.cs.graph.nodes.filter (fun n => n.id ≠ upid) := rfl
  rw [hg] at hn
  simp only [List.mem_filter, decide_eq_true_eq] at hn
  exact hn.2

theorem catchTrue_input (upid apid : String) (parent : Option String)
    (trimmed : String) (s : StreamState) :
    (catchBranch true upid apid parent trimmed s).input = s.cs.input := rfl

/-- The non-`AbortError` `catch` branch, run from any stream state
reachable without an `end` frame on a clean pre-send state, restores the
pre-send state except that the input box now holds the trimmed text. -/
theorem catch_false_result (ctx : SendCtx) (st : ClientState) (T : String)
    (s' : StreamState)
    (hR : StreamPreserve (initialStreamState ctx st T) s')
    (hclean_path : st.pathStore (pendingKeyOf ctx T) = none)
    (hclean_sess : st.sessions (pendingKeyOf ctx T) = none)
    (hclean_send : st.sendingKeys (pendingKeyOf ctx T) = false)
    (hactive : st.activeKey ≠ pendingKeyOf ctx T)
    (hnodes : ∀ n ∈ st.graph.nodes, n.id ≠ sendUserPendingId ctx)
    (hedges : ∀ e ∈ st.graph.edges,
      e.source ≠ sendUserPendingId ctx ∧ e.target ≠ sendUserPendingId ctx)
    (hpan : st.pageActiveTreeId = some T →
      st.pageActiveNodeId = effNodeIdOf ctx)
    (hpan2 : st.pageActiveNodeId ≠ some (sendUserPendingId ctx)) :
    catchBranch false (sendUserPendingId ctx) (sendAssistantPendingId ctx)
      (effNodeIdOf ctx) (jsTrim st.input) s' =
      { st with input := (jsTrim st.input) } := by
  obtain ⟨hk, hfin, hoffp, hoffs, hak, hsnap, hsend', hinput, hgraph, hunread,
    hscroll, hptree, hpnode⟩ := hR
  have hk' : s'.streamKey = pendingKeyOf ctx T := hk
  have hak' : s'.cs.activeKey = st.activeKey := hak
  refine clientState_eq_of_fields _ _ ?_ ?_ ?_ ?_ ?_ ?_ ?_ ?_ ?_ ?_ ?_
  · funext k
    rw [catchFalse_pathStore]
    by_cases hkk : k = pendingKeyOf ctx T
    · rw [if_pos (by rw [hk', hkk]), hkk]
      exact hclean_path.symm
    · rw [if_neg (fun e => hkk (e.trans hk')), hoffp k (fun e => hkk e)]
      show (if k = pendingKeyOf ctx T then _ else st.pathStore k) = _
      rw [if_neg hkk]
  · rw [catchFalse_pathSnapshot _ _ _ _ _ (by rw [hak', hk']; exact hactive)]
    rw [hsnap (by exact hactive)]
    rfl
  · rw [catchFalse_activeKey, hak']
  · funext k
    rw [catchFalse_sendingKeys]
    by_cases hkk : k = pendingKeyOf ctx T
    · rw [if_pos (by rw [hk', hkk]), hkk]
      exact hclean_send.symm
    · rw [if_neg (fun e => hkk (e.trans hk')), hsend']
      show (if k = pendingKeyOf ctx T then _ else st.sendingKeys k) = _
      rw [if_neg hkk]
  · funext k
    rw [catchFalse_sessions]
    by_cases hkk : k = pendingKeyOf ctx T
    · rw [if_pos (by rw [hk', hkk]), hkk]
      exact hclean_sess.symm
    · rw [if_neg (fun e => hkk (e.trans hk')), hoffs k (fun e => hkk e)]
      show (if k = pendingKeyOf ctx T then _ else st.sessions k) = _
      rw [if_neg hkk]
  · rw [catchFalse_input]
  · rw [catchFalse_graph, hgraph]
    have hex : (st.graph.nodes.any
        (fun n => n.id = sendUserPendingId ctx)) = false := by
      simp only [List.any_eq_false, decide_eq_true_eq]
      exact hnodes
    have hg0 : (optimisticState ctx st T).graph =
        { nodes := st.graph.nodes ++
            [{ id := sendUserPendingId ctx, role := "user",
               label := (jsTrim st.input), parent_id := effNodeIdOf ctx,
               user_label := some (jsTrim st.input), assistant_label := none }]
          edges := (match effNodeIdOf ctx with
            | some p =>
                if st.graph.edges.any
                    (fun e => e.target = sendUserPendingId ctx) then
                  st.graph.edges
                else st.graph.edges ++
                  [{ id := "pending-edge-" ++ p ++ "-" ++ sendUserPendingId ctx
                     source := p, target := sendUserPendingId ctx }]
            | none => st.graph.edges) } := by
      rw [optimisticState_graph]
      simp only [handlePendingUserMessage, hex, Bool.false_eq_true, if_false]
    rw [show (initialStreamState ctx st T).cs.graph =
      (optimisticState ctx st T).graph from rfl, hg0]
    dsimp only
    have hnfilter : ∀ pid : Option String, (st.graph.nodes ++
        [GraphNode.mk (sendUserPendingId ctx) "user" (jsTrim st.input)
          pid (some (jsTrim st.input)) none]).filter
          (fun n => n.id ≠ sendUserPendingId ctx) =
        st.graph.nodes := by
      intro pid
      rw [List.filter_append]
      have h1 : st.graph.nodes.filter
          (fun n => n.id ≠ sendUserPendingId ctx) = st.graph.nodes :=
        filter_id_of_mem (fun n hn => by simp [hnodes n hn])
      have h2 : ([GraphNode.mk (sendUserPendingId ctx) "user"
          (jsTrim st.input) pid (some (jsTrim st.input))
          none]).filter (fun n => n.id ≠ sendUserPendingId ctx) = [] := by
        simp
      rw [h1, h2, List.append_nil]
    have hefilter : ∀ edges : List GraphEdge,
        (∀ e ∈ edges, e.source ≠ sendUserPendingId ctx ∧
          e.target ≠ sendUserPendingId ctx) →
        edges.filter (fun e => e.source ≠ sendUserPendingId ctx ∧
          e.target ≠ sendUserPendingId ctx) = edges :=
      fun edges h => filter_id_of_mem (fun e he => by simp [(h e he).1, (h e he).2])
    cases hpar : effNodeIdOf ctx with
    | none =>
        simp only
        rw [hnfilter none, hefilter st.graph.edges hedges]
    | some p =>
        simp only
        rw [hnfilter (some p)]
        by_cases hany : (st.graph.edges.any
            (fun e => e.target = sendUserPendingId ctx)) = true
        · rw [if_pos hany, hefilter st.graph.edges hedges]
        · rw [if_neg hany, List.filter_append,
            hefilter st.graph.edges hedges]
          have h2 : ([GraphEdge.mk ("pending-edge-" ++ p ++ "-" ++
              sendUserPendingId ctx) p (sendUserPendingId ctx)]).filter
              (fun e => e.source ≠ sendUserPendingId ctx ∧
                e.target ≠ sendUserPendingId ctx) = [] := by
            simp
          rw [h2, List.append_nil]
  · rw [catchFalse_pageActiveTreeId, hptree]
    rfl
  · rw [catchFalse_pageActiveNodeId, hpnode,
      show (initialStreamState ctx st T).cs.pageActiveNodeId =
        (optimisticState ctx st T).pageActiveNodeId from rfl,
      optimisticState_pageActiveNodeId]
    by_cases htree : some T = st.pageActiveTreeId
    · rw [if_pos htree, if_pos rfl]
      exact (hpan htree.symm).symm
    · rw [if_neg htree, if_neg hpan2]
  · rw [catchFalse_unreadMap, hunread]
    rfl
  · rw [catchFalse_scrollPositions, hscroll]
    rfl

/-! ### C1 — completed stream reconciliation -/

/-- C1: a send whose stream is a protocol-conforming completed exchange
(`start`, any number of `token` frames, an `end` frame carrying a truthy
assistant id) leaves, under the migrated key (target tree, final
assistant id), exactly the pre-send snapshot path plus one user entry
holding the sent trimmed text and one assistant entry holding the end
frame's final content, both with `pending = false`. -/
theorem completed_stream_path (ctx : SendCtx) (st : ClientState)
    (uid : Option String) (tokens : List (Option String)) (a c T : String)
    (hsend : st.sendingKeys (currentKeyOf ctx) = false)
    (htrim : (jsTrim st.input) ≠ "")
    (hres : resolveTargetTree ctx.treeId ctx.ensureTree = some T)
    (ha : a ≠ "")
    (huid : uid ≠ some (sendAssistantPendingId ctx))
    (hbase : ∀ m ∈ basePathOf ctx st,
      m.id ≠ some (sendUserPendingId ctx) ∧
      m.id ≠ some (sendAssistantPendingId ctx)) :
    (send ctx st (StreamOutcome.frames
      (Frame.start uid :: (tokens.map Frame.token ++
        [Frame.endFrame (some a) (some c)]))
      Terminal.eof)).1.pathStore (computeKey (some T) (some a)) =
    some (basePathOf ctx st ++
      [{ role := "user", content := (jsTrim st.input), pending := false,
         id := some (uid.getD (sendUserPendingId ctx)) },
       { role := "assistant", content := c, pending := false,
         id := some a }]) := by
  have hids : sendUserPendingId ctx ≠ sendAssistantPendingId ctx :=
    pending_ids_distinct_roles ctx.stamp ctx.stamp
  rw [send_open ctx st _ T hsend htrim hres]
  dsimp only
  have hpath0 : (initialStreamState ctx st T).cs.pathStore
      (initialStreamState ctx st T).streamKey = some (basePathOf ctx st ++
      [{ role := "user", content := (jsTrim st.input), pending := true,
         id := some (sendUserPendingId ctx) },
       { role := "assistant", content := "", pending := true,
         id := some (sendAssistantPendingId ctx) }]) := by
    show (optimisticState ctx st T).pathStore (pendingKeyOf ctx T) = _
    rw [optimisticState_pathStore]
    simp
  have hsess0 : (initialStreamState ctx st T).cs.sessions
      (initialStreamState ctx st T).streamKey =
      some ⟨sendAssistantPendingId ctx, none, "", none, true⟩ := by
    show (optimisticState ctx st T).sessions (pendingKeyOf ctx T) = _
    rw [optimisticState_sessions]
    simp
  obtain ⟨s1, hps1, hk1, hpath1, hsess1, hsrv1, hfin1, _, _, _, _, _, _, _, _⟩ :=
    start_step (sendUserPendingId ctx) (sendAssistantPendingId ctx) T uid
      (initialStreamState ctx st T) (basePathOf ctx st) (jsTrim st.input)
      (fun h => hids h.symm) (fun m hm => (hbase m hm).1) hpath0 hsess0
  have hu : (some (uid.getD (sendUserPendingId ctx)) : Option String) ≠
      some (sendAssistantPendingId ctx) := by
    cases uid with
    | none => simpa using hids
    | some u => simpa using fun h => huid (by rw [h])
  obtain ⟨s2, acc', hrun2, hk2, hpath2, hsess2, hsrv2, hfin2, _, _, _, _, _, _,
    _, _⟩ :=
    token_loop_inv (sendUserPendingId ctx) (sendAssistantPendingId ctx) T uid
      (basePathOf ctx st)
      ({ role := "user", content := (jsTrim st.input), pending := false,
         id := some (uid.getD (sendUserPendingId ctx)) } : DisplayMessage)
      hu (fun m hm => (hbase m hm).2) tokens s1 ""
      (by rw [hk1]; exact hpath1) (by rw [hk1]; exact hsess1) hsrv1
      (by rw [hfin1]; rfl)
  obtain ⟨s3, hps3, hfin3, hpathK'⟩ :=
    end_step (sendUserPendingId ctx) (sendAssistantPendingId ctx) T uid a c
      (jsTrim st.input) s2 (basePathOf ctx st) acc' ha hids huid hbase hsrv2
      (by rw [hk2]; exact hpath2)
  have hall : processFrames (sendUserPendingId ctx) (sendAssistantPendingId ctx)
      T (initialStreamState ctx st T)
      (Frame.start uid :: (tokens.map Frame.token ++
        [Frame.endFrame (some a) (some c)])) = .ok s3 := by
    show (match processFrame (sendUserPendingId ctx) (sendAssistantPendingId ctx)
        T (initialStreamState ctx st T) (Frame.start uid) with
      | .ok s' => processFrames (sendUserPendingId ctx)
          (sendAssistantPendingId ctx) T s'
          (tokens.map Frame.token ++ [Frame.endFrame (some a) (some c)])
      | .error _ => .error (initialStreamState ctx st T)) = _
    simp only [hps1]
    rw [processFrames_append]
    simp only [hrun2]
    show (match processFrame (sendUserPendingId ctx) (sendAssistantPendingId ctx)
        T s2 (Frame.endFrame (some a) (some c)) with
      | .ok s' => processFrames (sendUserPendingId ctx)
          (sendAssistantPendingId ctx) T s' []
      | .error _ => .error s2) = _
    simp only [hps3, processFrames]
  show (runStream _ _ _ _ _ _ _).pathStore _ = _
  simp only [runStream, hall, hfin3]
  rw [if_neg ha]
  rw [successTail_pathStore]
  exact hpathK'

theorem completed_stream_path_witness :
    (send ⟨some "t1", none, none, none, "s7"⟩
      { emptyState with input := "hello" }
      (StreamOutcome.frames
        (Frame.start (some "u1") :: ([some "Hi"].map Frame.token ++
          [Frame.endFrame (some "a1") (some "Hi there")]))
        Terminal.eof)).1.pathStore (computeKey (some "t1") (some "a1")) =
    some [{ role := "user", content := "hello", pending := false,
            id := some "u1" },
          { role := "assistant", content := "Hi there", pending := false,
            id := some "a1" }] := by
  have h := completed_stream_path ⟨some "t1", none, none, none, "s7"⟩
    { emptyState with input := "hello" } (some "u1") [some "Hi"] "a1"
    "Hi there" "t1" rfl (by decide) (by decide) (by decide) (by decide)
    (by
      intro m hm
      simp [basePathOf, resolveTargetTree, strTruthy, computeKey,
        emptyState] at hm)
  exact h

/-! ### C2 — transport/protocol failure rollback -/

/-- C2 counterexample: the claim says the failure path "restores the
user's typed text into the input buffer", but the catch branch runs
`setInput(trimmed)`: typing `" hi"` and hitting a failing HTTP response
leaves `"hi"` in the box, not the typed `" hi"`. -/
theorem failed_restore_raw_false :
    (send ⟨some "t1", none, none, none, "s7"⟩
      { emptyState with input := " hi" } StreamOutcome.httpError).1.input ≠
      " hi" := by
  decide

/-- C2 (amended): for every send whose stream fails with a transport or
protocol error — a failing HTTP response, a malformed frame, an explicit
`error` frame, a mid-stream transport error, or EOF without an `end`
frame — the catch branch rolls the client back to the pre-send state
(assumed clean at the provisional key, free of the temporary ids, and
with a consistent selection), except that the input box is restored to
the *trimmed* text rather than the raw typed text: the whole optimistic
cache entry is deleted, the sending flag and stream session are cleared,
and the optimistic user node and its edge are retracted from the graph,
so no node with either temporary id remains. -/
theorem failed_stream_rollback (ctx : SendCtx) (st : ClientState)
    (o : StreamOutcome) (fs : List Frame) (term : Terminal) (T : String)
    (hsend : st.sendingKeys (currentKeyOf ctx) = false)
    (htrim : (jsTrim st.input) ≠ "")
    (hres : resolveTargetTree ctx.treeId ctx.ensureTree = some T)
    (ho : o = StreamOutcome.httpError ∨
      (o = StreamOutcome.frames fs term ∧
        (∀ a c, Frame.endFrame a c ∉ fs) ∧ term ≠ Terminal.aborted))
    (hclean_path : st.pathStore (pendingKeyOf ctx T) = none)
    (hclean_sess : st.sessions (pendingKeyOf ctx T) = none)
    (hclean_send : st.sendingKeys (pendingKeyOf ctx T) = false)
    (hactive : st.activeKey ≠ pendingKeyOf ctx T)
    (hnodes : ∀ n ∈ st.graph.nodes, n.id ≠ sendUserPendingId ctx)
    (hedges : ∀ e ∈ st.graph.edges,
      e.source ≠ sendUserPendingId ctx ∧ e.target ≠ sendUserPendingId ctx)
    (hpan : st.pageActiveTreeId = some T →
      st.pageActiveNodeId = effNodeIdOf ctx)
    (hpan2 : st.pageActiveNodeId ≠ some (sendUserPendingId ctx)) :
    (send ctx st o).1 = { st with input := (jsTrim st.input) } := by
  rw [send_open ctx st o T hsend htrim hres]
  dsimp only
  rcases ho with rfl | ⟨rfl, hnoend, hterm⟩
  · exact catch_false_result ctx st T _ (streamPreserve_refl _) hclean_path
      hclean_sess hclean_send hactive hnodes hedges hpan hpan2
  · obtain ⟨s', hd, hok, hR⟩ := no_end_run (sendUserPendingId ctx)
      (sendAssistantPendingId ctx) T fs hnoend (initialStreamState ctx st T)
    have hrun : runStream (sendUserPendingId ctx) (sendAssistantPendingId ctx)
        T (effNodeIdOf ctx) (jsTrim st.input) (initialStreamState ctx st T)
        (StreamOutcome.frames fs term) =
        catchBranch false (sendUserPendingId ctx) (sendAssistantPendingId ctx)
          (effNodeIdOf ctx) (jsTrim st.input) s' := by
      rcases hd with hok' | herr
      · cases term with
        | aborted => exact absurd rfl hterm
        | transportError => simp only [runStream, hok']
        | eof =>
            have hfin : s'.finalAssistantId = none := hR.2.1
            simp only [runStream, hok', hfin]
      · simp only [runStream, herr]
    rw [hrun]
    exact catch_false_result ctx st T s' hR hclean_path hclean_sess
      hclean_send hactive hnodes hedges hpan hpan2

theorem failed_stream_rollback_witness :
    (send ⟨some "t1", none, none, none, "s7"⟩
      { emptyState with input := " hi" } StreamOutcome.httpError).1 =
    { emptyState with input := "hi" } := by
  have h := failed_stream_rollback ⟨some "t1", none, none, none, "s7"⟩
    { emptyState with input := " hi" } StreamOutcome.httpError []
    Terminal.eof "t1" rfl (by decide) (by decide) (Or.inl rfl) rfl rfl rfl
    (by decide)
    (by intro n hn; exact absurd hn (List.not_mem_nil n))
    (by intro e he; exact absurd he (List.not_mem_nil e))
    (by intro h'; exact Option.noConfusion h') (by decide)
  exact h

/-! ### C3 — cancellation (abort) behaviour -/

/-- C3 counterexample: after a user cancellation the user message is
*not* kept in the cached path of the session's key — the catch branch
ends with `pathStoreRef.current.delete(streamKey)`, so the key has no
cached path at all (the claim's "no pending-assistant entry" survives
only vacuously). -/
theorem abort_user_kept_false :
    ¬ ∃ path, (send ⟨some "t1", none, none, none, "s7"⟩
      { emptyState with input := "hello" }
      (StreamOutcome.frames [Frame.start (some "u1"), Frame.token (some "Hi")]
        Terminal.aborted)).1.pathStore
      (computeKey (some "t1") (some "pending-user-s7")) = some path := by
  intro h
  obtain ⟨p, hp⟩ := h
  have hnone : (send ⟨some "t1", none, none, none, "s7"⟩
      { emptyState with input := "hello" }
      (StreamOutcome.frames [Frame.start (some "u1"), Frame.token (some "Hi")]
        Terminal.aborted)).1.pathStore
      (computeKey (some "t1") (some "pending-user-s7")) = none := by
    decide
  rw [hnone] at hp
  exact Option.noConfusion hp

/-- C3 (amended): cancelling an in-flight stream (AbortError) after a
`start` frame and any number of `token` frames deletes the *whole*
cache entry of the session's provisional key (so the final cached path
for that key vacuously contains no pending-assistant entry, but the
user message is not kept either), clears the session and the sending
flag, retracts the optimistic user node from the graph, and does not
restore the typed text (the input box stays empty). -/
theorem aborted_stream_cleanup (ctx : SendCtx) (st : ClientState)
    (o : StreamOutcome) (uid : Option String) (tokens : List (Option String))
    (T : String)
    (hsend : st.sendingKeys (currentKeyOf ctx) = false)
    (htrim : (jsTrim st.input) ≠ "")
    (hres : resolveTargetTree ctx.treeId ctx.ensureTree = some T)
    (ho : o = StreamOutcome.frames
      (Frame.start uid :: tokens.map Frame.token) Terminal.aborted) :
    (send ctx st o).1.pathStore (pendingKeyOf ctx T) = none ∧
    (send ctx st o).1.sessions (pendingKeyOf ctx T) = none ∧
    (send ctx st o).1.sendingKeys (pendingKeyOf ctx T) = false ∧
    (∀ n ∈ (send ctx st o).1.graph.nodes, n.id ≠ sendUserPendingId ctx) ∧
    (send ctx st o).1.input = "" := by
  subst ho
  rw [send_open ctx st _ T hsend htrim hres]
  dsimp only
  have hnoend : ∀ a c, Frame.endFrame a c ∉
      (Frame.start uid :: tokens.map Frame.token) := by
    intro a c hm
    rcases List.mem_cons.mp hm with h | h
    · exact Frame.noConfusion h
    · obtain ⟨d, _, hd⟩ := List.mem_map.mp h
      exact Frame.noConfusion hd
  obtain ⟨s', hd, hok, hR⟩ := no_end_run (sendUserPendingId ctx)
    (sendAssistantPendingId ctx) T _ hnoend (initialStreamState ctx st T)
  have hclean : Frame.malformed ∉ (Frame.start uid :: tokens.map Frame.token) ∧
      ∀ m, Frame.errorFrame m ∉ (Frame.start uid :: tokens.map Frame.token) := by
    constructor
    · intro hm
      rcases List.mem_cons.mp hm with h | h
      · exact Frame.noConfusion h
      · obtain ⟨d, _, hd⟩ := List.mem_map.mp h
        exact Frame.noConfusion hd
    · intro m hm
      rcases List.mem_cons.mp hm with h | h
      · exact Frame.noConfusion h
      · obtain ⟨d, _, hd⟩ := List.mem_map.mp h
        exact Frame.noConfusion hd
  have hok' := hok hclean
  have hrun : runStream (sendUserPendingId ctx) (sendAssistantPendingId ctx) T
      (effNodeIdOf ctx) (jsTrim st.input) (initialStreamState ctx st T)
      (StreamOutcome.frames (Frame.start uid :: tokens.map Frame.token)
        Terminal.aborted) =
      catchBranch true (sendUserPendingId ctx) (sendAssistantPendingId ctx)
        (effNodeIdOf ctx) (jsTrim st.input) s' := by
    simp only [runStream, hok']
  rw [hrun]
  obtain ⟨hk', _, _, _, _, _, _, hinput, _, _, _, _, _⟩ := hR
  have hkp : s'.streamKey = pendingKeyOf ctx T := hk'
  refine ⟨?_, ?_, ?_, catchTrue_graph_nodes _ _ _ _ _, ?_⟩
  · rw [← hkp]
    exact catchTrue_pathStore_at _ _ _ _ _
  · rw [← hkp]
    exact catchTrue_sessions_at _ _ _ _ _
  · rw [← hkp]
    exact catchTrue_sendingKeys_at _ _ _ _ _
  · rw [catchTrue_input, hinput]
    rfl

theorem aborted_stream_cleanup_witness :
    (send ⟨some "t1", none, none, none, "s7"⟩
      { emptyState with input := "hello" }
      (StreamOutcome.frames [Frame.start (some "u1"), Frame.token (some "Hi")]
        Terminal.aborted)).1.pathStore
      (pendingKeyOf ⟨some "t1", none, none, none, "s7"⟩ "t1") = none ∧
    (send ⟨some "t1", none, none, none, "s7"⟩
      { emptyState with input := "hello" }
      (StreamOutcome.frames [Frame.start (some "u1"), Frame.token (some "Hi")]
        Terminal.aborted)).1.sessions
      (pendingKeyOf ⟨some "t1", none, none, none, "s7"⟩ "t1") = none ∧
    (send ⟨some "t1", none, none, none, "s7"⟩
      { emptyState with input := "hello" }
      (StreamOutcome.frames [Frame.start (some "u1"), Frame.token (some "Hi")]
        Terminal.aborted)).1.sendingKeys
      (pendingKeyOf ⟨some "t1", none, none, none, "s7"⟩ "t1") = false ∧
    (send ⟨some "t1", none, none, none, "s7"⟩
      { emptyState with input := "hello" }
      (StreamOutcome.frames [Frame.start (some "u1"), Frame.token (some "Hi")]
        Terminal.aborted)).1.input = "" := by
  obtain ⟨h1, h2, h3, _, h5⟩ := aborted_stream_cleanup
    ⟨some "t1", none, none, none, "s7"⟩ { emptyState with input := "hello" }
    _ (some "u1") [some "Hi"] "t1" rfl (by decide) (by decide) rfl
  exact ⟨h1, h2, h3, h5⟩

/-! ### C4 — newline-boundary frame reassembly -/

theorem emitLines_pos (buf : List Char) (h : '\n' ∈ buf) :
    emitLines buf =
      (trimChars (buf.takeWhile (fun c => c ≠ '\n')) ::
        (emitLines ((buf.dropWhile (fun c => c ≠ '\n')).tail)).1,
       (emitLines ((buf.dropWhile (fun c => c ≠ '\n')).tail)).2) := by
  rw [emitLines]
  simp [h]

theorem emitLines_neg (buf : List Char) (h : '\n' ∉ buf) :
    emitLines buf = ([], buf) := by
  rw [emitLines]
  simp [h]

/-- After the inner split loop, the remaining buffer holds no newline. -/
theorem emitLines_snd_no_newline (buf : List Char) :
    '\n' ∉ (emitLines buf).2 := by
  induction buf using emitLines.induct with
  | case1 x hx post ih =>
      rw [emitLines_pos x hx]
      exact ih
  | case2 x hx =>
      rw [emitLines_neg x hx]
      exact hx

theorem dropWhile_ne_nil_of_mem (x : List Char) (hx : '\n' ∈ x) :
    x.dropWhile (fun c => c ≠ '\n') ≠ [] := by
  intro hnil
  have hall := List.dropWhile_eq_nil_iff.mp hnil '\n' hx
  simp at hall

theorem emitLines_append (a : List Char) : ∀ b : List Char,
    emitLines (a ++ b) =
      ((emitLines a).1 ++ (emitLines ((emitLines a).2 ++ b)).1,
       (emitLines ((emitLines a).2 ++ b)).2) := by
  induction a using emitLines.induct with
  | case1 x hx post ih =>
      intro b
      have hmem : '\n' ∈ x ++ b := List.mem_append_left _ hx
      have htake : (x ++ b).takeWhile (fun c => c ≠ '\n') =
          x.takeWhile (fun c => c ≠ '\n') := by
        rw [List.takeWhile_append]
        rw [if_neg]
        intro hlen
        have heq := (List.takeWhile_prefix (l := x) (fun c => c ≠ '\n')).eq_of_length hlen
        have := List.mem_takeWhile_imp (heq ▸ hx)
        simp at this
      have hdropne := dropWhile_ne_nil_of_mem x hx
      have hdrop : (x ++ b).dropWhile (fun c => c ≠ '\n') =
          x.dropWhile (fun c => c ≠ '\n') ++ b := by
        rw [List.dropWhile_append, if_neg]
        simpa [List.isEmpty_iff] using hdropne
      rw [emitLines_pos _ hmem, emitLines_pos _ hx, htake, hdrop,
        List.tail_append_of_ne_nil hdropne]
      dsimp only
      rw [ih b]
      simp only [List.cons_append]
  | case2 x hx =>
      intro b
      rw [emitLines_neg x hx]
      simp

/-- The reference splitter distributes over an appended suffix through
the buffered residue. -/
theorem specSplitLines_append (a b : List Char) :
    specSplitLines (a ++ b) =
      (emitLines a).1 ++ specSplitLines ((emitLines a).2 ++ b) := by
  unfold specSplitLines
  rw [emitLines_append a b]
  simp

theorem readLoop_spec (cs : List (List Char)) : ∀ buf : List Char, '\n' ∉ buf →
    readLoop cs buf = specSplitLines (buf ++ cs.flatten) := by
  induction cs with
  | nil =>
      intro buf hbuf
      unfold readLoop specSplitLines
      rw [List.flatten_nil, List.append_nil, emitLines_neg buf hbuf]
      simp
  | cons c cs ih =>
      intro buf _
      show (emitLines (buf ++ c)).1 ++ readLoop cs (emitLines (buf ++ c)).2 = _
      rw [List.flatten_cons, ← List.append_assoc,
        specSplitLines_append (buf ++ c) cs.flatten,
        ih (emitLines (buf ++ c)).2 (emitLines_snd_no_newline _)]

/-- C4: the reader splits the stream into frames only at newline
boundaries: the sequence of (trimmed) lines handed to `processLine` by
the chunked read loop equals the reference newline split of the whole
decoded stream — each line exactly once, in arrival order, the trailing
non-empty partial line included — and is therefore identical for every
chunking of the same stream. -/
theorem stream_split_chunking_invariant :
    (∀ chunks : List (List Char), processChunks chunks =
      specSplitLines chunks.flatten) ∧
    (∀ cs ds : List (List Char), cs.flatten = ds.flatten →
      processChunks cs = processChunks ds) := by
  have h1 : ∀ chunks : List (List Char), processChunks chunks =
      specSplitLines chunks.flatten := by
    intro chunks
    unfold processChunks
    rw [readLoop_spec chunks [] (by simp)]
    rfl
  exact ⟨h1, fun cs ds h => by rw [h1, h1, h]⟩

/-- Witness for `stream_split_chunking_invariant`: a frame split across
two reads is reassembled exactly as when it arrives in one read. -/
theorem stream_split_witness :
    processChunks [['a'], ['b', '\n', 'c']] =
      processChunks [['a', 'b', '\n', 'c']] :=
  stream_split_chunking_invariant.2 [['a'], ['b', '\n', 'c']]
    [['a', 'b', '\n', 'c']] rfl

/-! ### C5 — unread set lifecycle -/

/-- The unread map after `handleAfterSend` is always
`markNodeUnread`, in both the viewing and the non-viewing branch. -/
theorem handleAfterSend_unreadMap (st : ClientState) (aid tid pid : String) :
    (handleAfterSend st aid tid pid).unreadMap =
      markNodeUnread st.unreadMap tid aid := by
  unfold handleAfterSend
  split <;> rfl

/-- Counterexample to C5 as stated: `handleAfterSend` calls
`markNodeUnread` unconditionally, before the active-tree early return,
so a reply completing on the tree the user is currently viewing
(`pageActiveTreeId = some "t1"`) is still added to the unread set —
refuting the "only if the reply's tree is not the tree currently being
viewed" direction. -/
theorem unread_added_while_viewing :
    ({ emptyState with pageActiveTreeId := some "t1" } : ClientState).pageActiveTreeId
      = some "t1" ∧
    "a1" ∈ ((handleAfterSend { emptyState with pageActiveTreeId := some "t1" }
      "a1" "t1" "pu").unreadMap "t1").getD ∅ := by
  constructor
  · rfl
  · rw [handleAfterSend_unreadMap]
    simp [markNodeUnread, emptyState]

/-- C5 amended: on completion the assistant id is added to the reply
tree's unread set unconditionally — also when that tree is currently
being viewed — and it is removed when the scroll position for the exact
(tree, node) pair being viewed settles within the 2px epsilon of the
bottom. -/
theorem unread_enter_exit :
    (∀ (st : ClientState) (aid tid pid : String), tid ≠ "" → aid ≠ "" →
      aid ∈ ((handleAfterSend st aid tid pid).unreadMap tid).getD ∅) ∧
    (∀ (st : ClientState) (rootId : Option String) (sh sc sTop : ℚ) (t n : String),
      st.pageActiveTreeId = some t → st.pageActiveNodeId = some n →
      t ≠ "" → n ≠ "" → |sh - sc - sTop| ≤ 2 →
      n ∉ ((handleScrollPositionChange st rootId
        (handleScroll sh sc sTop)).unreadMap t).getD ∅) := by
  constructor
  · intro st aid tid pid htid haid
    rw [handleAfterSend_unreadMap]
    unfold markNodeUnread
    rw [if_neg (by simp [htid, haid])]
    by_cases hmem : aid ∈ (st.unreadMap tid).getD ∅
    · simpa [hmem] using hmem
    · simp only [hmem, if_false]
      simp
  · intro st rootId sh sc sTop t n hat han htne hnne heps
    have hscroll : handleScroll sh sc sTop = none := by
      unfold handleScroll
      rw [if_pos heps]
    rw [hscroll]
    unfold handleScrollPositionChange
    have hkey : currentScrollKeyOf st rootId =
        some (t ++ ":" ++ ((st.pageActiveNodeId.orElse fun _ => rootId).getD "__root__")) := by
      unfold currentScrollKeyOf
      rw [hat]
      simp [htne]
    rw [hkey, hat, han]
    dsimp only
    by_cases hcond : strTruthy (some t) ∧ strTruthy (some n) ∧
        n ∈ (st.unreadMap t).getD ∅
    · rw [if_pos hcond]
      obtain ⟨-, -, hmem⟩ := hcond
      cases hmt : st.unreadMap t with
      | none => rw [hmt] at hmem; simp at hmem
      | some ex =>
          rw [hmt] at hmem
          simp only [Option.getD_some] at hmem
          show n ∉ ((markNodeRead st.unreadMap t n) t).getD ∅
          unfold markNodeRead
          rw [if_neg (by simp [htne, hnne]), hmt]
          simp only [hmem, not_true, if_neg, ite_not]
          rw [if_neg (by simpa using hmem)]
          by_cases hemp : ex.erase n = ∅
          · rw [if_pos hemp]
            simp
          · rw [if_neg hemp]
            simp [Finset.not_mem_erase]
    · rw [if_neg hcond]
      intro hmem
      exact hcond ⟨by simp [strTruthy, htne], by simp [strTruthy, hnne], hmem⟩

/-- Witness for `unread_enter_exit` at concrete inputs: a completed
reply enters the unread set; a bottom-settled scroll removes the viewed
node. -/
theorem unread_enter_exit_witness :
    "a1" ∈ ((handleAfterSend emptyState "a1" "t1" "pu").unreadMap "t1").getD ∅ ∧
    "n1" ∉ ((handleScrollPositionChange
        { emptyState with
            pageActiveTreeId := some "t1", pageActiveNodeId := some "n1"
            unreadMap := fun t => if t = "t1" then some {"n1"} else none }
        none (handleScroll 10 4 6)).unreadMap "t1").getD ∅ := by
  constructor
  · exact unread_enter_exit.1 emptyState "a1" "t1" "pu" (by decide) (by decide)
  · exact unread_enter_exit.2 _ none 10 4 6 "t1" "n1" rfl rfl (by decide) (by decide)
      (by norm_num)

/-! ### C8 — layout engine -/

theorem rowFrom_keys (q : List String) : ∀ k : ℚ,
    (rowFrom k q).map Prod.fst = q := by
  induction q with
  | nil => intro k; rfl
  | cons id rest ih => intro k; simp [rowFrom, ih]

theorem rowFrom_y (q : List String) : ∀ (k : ℚ), ∀ e ∈ rowFrom k q, e.2.y = 0 := by
  induction q with
  | nil => intro k e he; cases he
  | cons id rest ih =>
      intro k e he
      rcases List.mem_cons.mp he with h | h
      · rw [h]
      · exact ih (k + 1) e h

theorem setAssoc_not_mem (l : List (String × Pos)) (id : String) (v : Pos)
    (h : ∀ e ∈ l, e.1 ≠ id) : setAssoc l id v = l ++ [(id, v)] := by
  unfold setAssoc
  rw [if_neg]
  simp only [List.any_eq_true, not_exists, not_and]
  intro e he
  simpa using h e he

theorem foldl_min_zero (l : List ℚ) (h : ∀ x ∈ l, x = 0) :
    l.foldl min 0 = 0 := by
  induction l with
  | nil => rfl
  | cons x xs ih =>
      rw [List.foldl_cons, h x (by simp), min_self]
      exact ih fun y hy => h y (by simp [hy])

theorem foldl_max_zero (l : List ℚ) (h : ∀ x ∈ l, x = 0) :
    l.foldl max 0 = 0 := by
  induction l with
  | nil => rfl
  | cons x xs ih =>
      rw [List.foldl_cons, h x (by simp), max_self]
      exact ih fun y hy => h y (by simp [hy])

theorem recenter_keys (l : List (String × Pos)) :
    (recenter l).map Prod.fst = l.map Prod.fst := by
  cases l with
  | nil => rfl
  | cons p rest => simp [recenter]

theorem recenter_y_zero (l : List (String × Pos)) (h : ∀ e ∈ l, e.2.y = 0) :
    ∀ e ∈ recenter l, e.2.y = 0 := by
  cases l with
  | nil => intro e he; cases he
  | cons p rest =>
      intro e he
      simp only [recenter] at he
      have hp : p.2.y = 0 := h p (by simp)
      have hys : ∀ x ∈ rest.map (fun e => e.2.y), x = 0 := by
        intro x hx
        rcases List.mem_map.mp hx with ⟨e', he', hx'⟩
        rw [← hx']
        exact h e' (by simp [he'])
      have hmin : (rest.map (fun e => e.2.y)).foldl min p.2.y = 0 := by
        rw [hp]; exact foldl_min_zero _ hys
      have hmax : (rest.map (fun e => e.2.y)).foldl max p.2.y = 0 := by
        rw [hp]; exact foldl_max_zero _ hys
      rcases List.mem_map.mp he with ⟨e', he', hx'⟩
      rw [← hx']
      have hy' : e'.2.y = 0 := h e' he'
      simp [hmin, hmax, hy']

theorem bfsLoop_no_children (q : List String) :
    ∀ (fuel : ℕ) (pos : List (String × Pos)) (li : ℕ → ℕ)
      (children : String → List String),
    q.length ≤ fuel → (∀ id, children id = []) → q.Nodup →
    (∀ id ∈ q, ∀ e ∈ pos, e.1 ≠ id) →
    bfsLoop fuel children (q.map (fun id => (id, 0))) pos li =
      pos ++ rowFrom (li 0 : ℚ) q := by
  induction q with
  | nil =>
      intro fuel pos li children _ _ _ _
      cases fuel <;> simp [bfsLoop, rowFrom]
  | cons id rest ih =>
      intro fuel pos li children hfuel hch hnodup hdisj
      cases fuel with
      | zero => simp at hfuel
      | succ f =>
          rw [List.map_cons]
          show bfsLoop (f + 1) children ((id, 0) :: rest.map fun id => (id, 0))
            pos li = _
          unfold bfsLoop
          rw [hch id]
          simp only [List.map_nil, List.append_nil, Nat.cast_zero, zero_mul]
          rw [setAssoc_not_mem pos id _ (fun e he => hdisj id (by simp) e he)]
          have hdisj' : ∀ id' ∈ rest, ∀ e ∈ pos ++ [(id,
              (⟨(li 0 : ℚ) * NODE_HORIZONTAL_GAP, 0⟩ : Pos))], e.1 ≠ id' := by
            intro id' hid' e he
            rcases List.mem_append.mp he with h | h
            · exact hdisj id' (by simp [hid']) e h
            · have : e = (id, (⟨(li 0 : ℚ) * NODE_HORIZONTAL_GAP, 0⟩ : Pos)) := by
                simpa using h
              rw [this]
              intro hcontra
              exact (List.nodup_cons.mp hnodup).1 (by simp at hcontra; rw [hcontra]; exact hid')
          rw [ih f _ _ children (by simpa using Nat.le_of_succ_le_succ hfuel) hch
            (List.nodup_cons.mp hnodup).2 hdisj']
          simp only [List.append_assoc, List.singleton_append, rowFrom]
          norm_num

/-- C8 amended, positive part: on an edgeless graph every node is
parentless, so the BFS path lays out *all* nodes (each one receives a
position) in one horizontal row at `y = 0` — the fixed-column grid
fallback is not taken, because it only triggers when the BFS assigned no
position at all (i.e. when no node is parentless). -/
theorem layoutNodes_edgeless (g : Graph) (he : g.edges = [])
    (hn : (g.nodes.map (fun n => n.id)).Nodup) :
    (layoutNodes g).map Prod.fst = g.nodes.map (fun n => n.id) ∧
    ∀ e ∈ layoutNodes g, e.2.y = 0 := by
  have hch : ∀ id, childrenOf g id = [] := by
    intro id
    unfold childrenOf
    rw [he]
    simp
  have hroots : (g.nodes.filter
      (fun n => ¬ ((g.edges.map (fun e => e.target)).contains n.id))).map
        (fun n => n.id) = g.nodes.map (fun n => n.id) := by
    rw [he]
    simp
  simp only [layoutNodes]
  rw [hroots, bfsLoop_no_children (g.nodes.map (fun n => n.id))
    (g.nodes.length + g.edges.length + 1) [] (fun _ => 0) (childrenOf g)
    (by rw [he]; simp) hch hn (by intro _ _ _ h; cases h)]
  simp only [List.nil_append, Nat.cast_zero]
  cases hnodes : g.nodes with
  | nil =>
      simp [rowFrom, gridPositions, recenter, hnodes]
  | cons n rest =>
      have hne : rowFrom 0 (g.nodes.map (fun n => n.id)) ≠ [] := by
        rw [hnodes]
        simp [rowFrom]
      rw [← hnodes, if_neg hne]
      exact ⟨by rw [recenter_keys, rowFrom_keys],
        recenter_y_zero _ (rowFrom_y _ 0)⟩

/-- Counterexample to C8 as stated: on five isolated nodes (no edges)
`layoutNodes` produces a single BFS row, not the fixed-column grid the
spec's fallback describes — the grid branch only runs when *no* node is
parentless, which an edgeless graph never satisfies. -/
theorem layout_grid_fallback_false :
    layoutNodes isolatedFive ≠ specLayoutRef isolatedFive := by
  intro heq
  have hall := (layoutNodes_edgeless isolatedFive rfl (by decide)).2
  rw [heq] at hall
  have hgrid : gridPositions isolatedFive.nodes =
      [("n1", ⟨0, 0⟩), ("n2", ⟨260, 0⟩), ("n3", ⟨520, 0⟩),
       ("n4", ⟨780, 0⟩), ("n5", ⟨0, 160⟩)] := by
    simp +decide [gridPositions, setAssoc, List.enum, isolatedFive,
      NODE_HORIZONTAL_GAP, NODE_VERTICAL_GAP]
    norm_num
  have hspec : specLayoutRef isolatedFive =
      [("n1", ⟨-390, -80⟩), ("n2", ⟨-130, -80⟩), ("n3", ⟨130, -80⟩),
       ("n4", ⟨390, -80⟩), ("n5", ⟨-390, 80⟩)] := by
    have he : isolatedFive.edges = [] := rfl
    simp only [specLayoutRef, if_pos he, hgrid]
    simp only [recenter]
    norm_num [min_def, max_def]
  rw [hspec] at hall
  have := hall ("n5", ⟨-390, 80⟩) (by simp)
  norm_num at this

/-- Witness for `layoutNodes_edgeless` on two isolated nodes. -/
theorem layoutNodes_edgeless_witness :
    (layoutNodes isolatedTwo).map Prod.fst = ["a", "b"] ∧
    ∀ e ∈ layoutNodes isolatedTwo, e.2.y = 0 :=
  layoutNodes_edgeless isolatedTwo rfl (by decide)


/-! ### C6 — temporary-id generation -/

theorem base36Digit_injOn :
    ∀ d1 < 36, ∀ d2 < 36, base36Digit d1 = base36Digit d2 → d1 = d2 := by
  decide

theorem map_base36Digit_inj : ∀ l1 l2 : List ℕ, (∀ d ∈ l1, d < 36) →
    (∀ d ∈ l2, d < 36) → l1.map base36Digit = l2.map base36Digit → l1 = l2 := by
  intro l1
  induction l1 with
  | nil => intro l2 _ _ h; cases l2 <;> simp_all
  | cons a as ih =>
      intro l2 h1 h2 h
      cases l2 with
      | nil => simp at h
      | cons b bs =>
          simp only [List.map_cons, List.cons.injEq] at h
          have ha : a = b :=
            base36Digit_injOn a (h1 a (by simp)) b (h2 b (by simp)) h.1
          have hrest := ih bs (fun d hd => h1 d (by simp [hd]))
            (fun d hd => h2 d (by simp [hd])) h.2
          rw [ha, hrest]

theorem base36_ne_zero_str (n : ℕ) (hn : n ≠ 0) : base36 n ≠ "0" := by
  intro h
  simp only [base36, if_neg hn] at h
  have hd := congrArg String.data h
  have h0 : ("0" : String).data = ['0'] := rfl
  rw [h0] at hd
  have hrev : (Nat.digits 36 n).map base36Digit = ['0'] := by
    have := congrArg List.reverse hd
    simpa using this
  rcases hl : Nat.digits 36 n with _ | ⟨d, rest⟩
  · rw [hl] at hrev; simp at hrev
  · rw [hl] at hrev
    simp only [List.map_cons, List.cons.injEq] at hrev
    obtain ⟨hchar, hrest⟩ := hrev
    have hrestnil : rest = [] := by simpa using hrest
    have hd36 : d < 36 := Nat.digits_lt_base (by norm_num) (by rw [hl]; simp)
    have hd0 : d = 0 := base36Digit_injOn d hd36 0 (by norm_num)
      (by simpa [base36Digit] using hchar)
    have := Nat.ofDigits_digits 36 n
    rw [hl, hrestnil, hd0] at this
    simp [Nat.ofDigits] at this
    exact hn this.symm

theorem base36_inj (m n : ℕ) (h : base36 m = base36 n) : m = n := by
  by_cases hm : m = 0 <;> by_cases hn : n = 0
  · rw [hm, hn]
  · exfalso
    rw [hm, show base36 0 = "0" from rfl] at h
    exact base36_ne_zero_str n hn h.symm
  · exfalso
    rw [hn, show base36 0 = "0" from rfl] at h
    exact base36_ne_zero_str m hm h
  · simp only [base36, if_neg hm, if_neg hn] at h
    have hd := congrArg String.data h
    simp only at hd
    have hmap : (Nat.digits 36 m).map base36Digit = (Nat.digits 36 n).map base36Digit :=
      List.reverse_injective hd
    have hdig : Nat.digits 36 m = Nat.digits 36 n :=
      map_base36Digit_inj _ _ (fun d hd => Nat.digits_lt_base (by norm_num) hd)
        (fun d hd => Nat.digits_lt_base (by norm_num) hd) hmap
    have := congrArg (Nat.ofDigits 36) hdig
    rwa [Nat.ofDigits_digits, Nat.ofDigits_digits] at this

theorem string_append_left_cancel {p a b : String} (h : p ++ a = p ++ b) :
    a = b := by
  have hd := congrArg String.data h
  rw [String.data_append, String.data_append] at hd
  exact String.ext (List.append_cancel_left hd)

/-- Counterexample to C6 as stated: the temporary ids carry no random
suffix — they are a function of `Date.now()` alone — so the two distinct
sends `⟨1000, "a"⟩` and `⟨1000, "b"⟩` started in the same millisecond
receive the same temporary user id. -/
theorem sameMsDistinctIds_false : ¬ sameMsDistinctIds := by
  intro h
  exact h ⟨1000, "a"⟩ ⟨1000, "b"⟩ (by decide) rfl rfl

/-- C6 amended: the temporary ids are generated from the base-36
timestamp alone (no random suffix), so two sends in the same millisecond
share their temporary ids, while sends in distinct milliseconds get
distinct ids, and the user and assistant ids never collide with each
other. -/
theorem tempId_generation (a b : SendEvent) :
    (a.nowMs = b.nowMs → userPendingIdOf a.nowMs = userPendingIdOf b.nowMs ∧
      assistantPendingIdOf a.nowMs = assistantPendingIdOf b.nowMs) ∧
    (a.nowMs ≠ b.nowMs → userPendingIdOf a.nowMs ≠ userPendingIdOf b.nowMs ∧
      assistantPendingIdOf a.nowMs ≠ assistantPendingIdOf b.nowMs) ∧
    userPendingIdOf a.nowMs ≠ assistantPendingIdOf b.nowMs := by
  refine ⟨fun h => by rw [h]; exact ⟨rfl, rfl⟩, fun h => ⟨?_, ?_⟩, ?_⟩
  · intro heq
    exact h (base36_inj _ _ (string_append_left_cancel heq))
  · intro heq
    exact h (base36_inj _ _ (string_append_left_cancel heq))
  · exact pending_ids_distinct_roles _ _

/-- Witness for `tempId_generation`: distinct milliseconds 0 and 1 give
distinct user ids; the user and assistant ids of one send differ. -/
theorem tempId_generation_witness :
    userPendingIdOf 0 ≠ userPendingIdOf 1 ∧
    userPendingIdOf 5 ≠ assistantPendingIdOf 5 :=
  ⟨((tempId_generation ⟨0, ""⟩ ⟨1, ""⟩).2.1 (by decide)).1,
   (tempId_generation ⟨5, ""⟩ ⟨5, ""⟩).2.2⟩

/-! ### C7 — send precondition guards -/

/-- C7: when a send is already in flight for the current key, or the
trimmed input is empty, or no target tree resolves, `send` returns the
state unchanged — path cache, sending set, session registry and input
buffer untouched — and opens no network stream. -/
theorem send_rejected_before_mutation (ctx : SendCtx) (st : ClientState)
    (o : StreamOutcome)
    (h : st.sendingKeys (currentKeyOf ctx) = true ∨ (jsTrim st.input) = "" ∨
      resolveTargetTree ctx.treeId ctx.ensureTree = none) :
    send ctx st o = (st, false) := by
  by_cases hs : st.sendingKeys (currentKeyOf ctx) = true
  · simp [send, hs]
  · rcases h with h | h | h
    · exact absurd h hs
    · simp [send, hs, h]
    · by_cases ht : (jsTrim st.input).length = 0
      · simp [send, hs, ht]
      · simp [send, hs, ht, h]

/-- Witness for `send_rejected_before_mutation`: a state whose sending
set already contains the current key is left untouched. -/
theorem send_rejected_witness :
    send { treeId := some "t", activeNodeId := none, defaultParentId := none
           ensureTree := none, stamp := "s" }
      { emptyState with sendingKeys := fun _ => true } StreamOutcome.httpError =
    ({ emptyState with sendingKeys := fun _ => true }, false) :=
  send_rejected_before_mutation _ _ _ (Or.inl rfl)

end TreeGpt
